import Mathlib

/-!
# NMEA data receiver: sentence framer and GPGGA decoder

Shallow embedding of `main.c`.

* Characters and received bytes are natural numbers (their codes); text is `List Nat`.
* Arithmetic is modelled at two levels. In `atof`, `convertir_grados_minutos_a_decimal` and
  `procesar_sentencia_nmea`, and in the framer built on them, `float` values are taken in
  exact arithmetic (`ℚ`) and the `int` temporary of the converter is the exact truncation:
  this level carries the facts that do not depend on rounding (framing, tokens, signs).
  The definitions with the suffix `_binary32` follow the program in IEEE 754 binary32 /
  binary64 with a 32-bit `int`: rounding to nearest, hexadecimal, `inf` and `nan` input,
  overflow and the range of the `(int)` cast.
* The globals `buffer_nmea` / `indice_buffer` are an explicit state; a store outside the
  256 cells of `buffer_nmea` makes the operation fail (`none`).
* The three `float *` output parameters are passed in and returned (`Coordenadas`).
* The bytes delivered by `uart_read_bytes` are the argument `datos_recibidos`
  (at most 127 per call in the program).
-/

namespace NMEA

/-! ## Text helpers and C library functions -/

/-- Character codes of an ASCII literal. -/
def bytes (s : String) : List Nat := s.toList.map Char.toNat

/-- The C string stored at the start of a `char` array: the characters before the first NUL. -/
def cadena (arr : List Nat) : List Nat := arr.takeWhile (fun c => c != 0)

/-- C `isspace` in the "C" locale: space, and `\t \n \v \f \r`. -/
def isspace (c : Nat) : Bool := c == 32 || (9 ≤ c && c ≤ 13)

/-- C `isdigit`. -/
def isdigit (c : Nat) : Bool := 48 ≤ c && c ≤ 57

/-- Reads a run of decimal digits: returns the accumulated value, the number of digits read
and the text that follows them. -/
def leer_digitos : List Nat → Nat → Nat → Nat × Nat × List Nat
  | [], acc, n => (acc, n, [])
  | c :: r, acc, n =>
    if isdigit c then leer_digitos r (acc * 10 + (c - 48)) (n + 1) else (acc, n, c :: r)

/-- An optional sign: whether it is a minus, and the text after it. -/
def leer_signo : List Nat → Bool × List Nat
  | 45 :: r => (true, r)
  | 43 :: r => (false, r)
  | s => (false, s)

/-- Decimal exponent part (`e`/`E`, optional sign, at least one digit); `0` when absent. -/
def leer_exponente : List Nat → Int
  | [] => 0
  | c :: r =>
    if c = 101 ∨ c = 69 then
      match leer_digitos (leer_signo r).2 0 0 with
      | (ev, en, _) => if en = 0 then 0 else if (leer_signo r).1 then -(ev : Int) else (ev : Int)
    else 0

/-- C `atof` (that is `strtod`) on decimal notation, valued in exact arithmetic: leading
white space, optional sign, digits with an optional fraction, optional exponent; the longest
such start of the text is converted and the rest ignored; `0` when no digit is found.
Hexadecimal, `inf` and `nan` spellings are not part of this model. -/
def atof (s : List Nat) : ℚ :=
  match leer_signo (s.dropWhile isspace) with
  | (neg, s2) =>
    match leer_digitos s2 0 0 with
    | (m1, n1, s3) =>
      match (match s3 with
             | 46 :: r => leer_digitos r m1 0
             | _ => (m1, 0, s3)) with
      | (m2, n2, s4) =>
        if n1 + n2 = 0 then 0
        else
          let v : ℚ := (m2 : ℚ) * (10 : ℚ) ^ (leer_exponente s4 - (n2 : Int))
          if neg then -v else v

/-- C `strstr(pajar, aguja) != NULL`: `aguja` occurs as a contiguous run inside `pajar`. -/
def strstr : List Nat → List Nat → Bool
  | [], aguja => aguja.isEmpty
  | c :: r, aguja => aguja.isPrefixOf (c :: r) || strstr r aguja

/-- One call of C `strtok` with the delimiter set `","` on the text still to be scanned:
leading commas are skipped; `none` (NULL) when nothing is left; otherwise the token (the
characters up to the next comma) and the text after that comma. -/
def strtok (p : List Nat) : Option (List Nat × List Nat) :=
  match p.dropWhile (fun c => c == 44) with
  | [] => none
  | c :: r =>
    some ((c :: r).takeWhile (fun c => c != 44), ((c :: r).dropWhile (fun c => c != 44)).drop 1)

/-- Fields of a sentence as the specification counts them: the pieces between commas, empty
pieces included. -/
def campos : List Nat → List (List Nat)
  | [] => [[]]
  | c :: r =>
    if c = 44 then [] :: campos r
    else
      match campos r with
      | [] => [[c]]
      | f :: fs => (c :: f) :: fs

/-- The non-empty fields of a text: the maximal runs of characters other than commas. -/
def tramos (p : List Nat) : List (List Nat) := (campos p).filter (fun f => !f.isEmpty)

/-- The conversion `(int)x` of a `float`: truncation toward zero. -/
def truncar (q : ℚ) : Int := if 0 ≤ q then ⌊q⌋ else ⌈q⌉

/-! ## The program -/

/-- The three `float` outputs `latitud`, `longitud`, `altitud`. -/
structure Coordenadas where
  latitud : ℚ
  longitud : ℚ
  altitud : ℚ
  deriving DecidableEq

/-- The local `grados_decimal` of `convertir_grados_minutos_a_decimal` before the hemisphere
test: whole degrees plus minutes over 60. -/
def grados_decimal (grados_minutos : List Nat) : ℚ :=
  let valor_grados_minutos : ℚ := atof grados_minutos
  let grados_enteros : Int := truncar (valor_grados_minutos / 100)
  let minutos_decimal : ℚ := valor_grados_minutos - (grados_enteros : ℚ) * 100
  (grados_enteros : ℚ) + minutos_decimal / 60

/-- Source: `convertir_grados_minutos_a_decimal`. -/
def convertir_grados_minutos_a_decimal (grados_minutos : List Nat) (direccion : Nat) : ℚ :=
  if direccion = 83 ∨ direccion = 87 then -grados_decimal grados_minutos
  else grados_decimal grados_minutos

/-- The tokenising loop of `procesar_sentencia_nmea`: `strtok` is called while it returns a
token and fewer than 20 have been stored; the first argument is the room left in `tokens`. -/
def bucle_tokens : Nat → List Nat → List (List Nat)
  | 0, _ => []
  | n + 1, p =>
    match strtok p with
    | none => []
    | some (token_actual, resto) => token_actual :: bucle_tokens n resto

/-- Source: `procesar_sentencia_nmea`. Returns the `int` result and the output values. -/
def procesar_sentencia_nmea (sentencia_nmea : List Nat) (co : Coordenadas) : Int × Coordenadas :=
  let copia_sentencia := (cadena sentencia_nmea).take 255
  let tokens := bucle_tokens 20 copia_sentencia
  let contador_tokens := tokens.length
  if contador_tokens ≥ 10 then
    if (tokens.getD 2 []).length > 0 ∧ (tokens.getD 4 []).length > 0
        ∧ (tokens.getD 9 []).length > 0 then
      (1, { latitud := convertir_grados_minutos_a_decimal (tokens.getD 2 [])
                         ((tokens.getD 3 []).headD 0)
            longitud := convertir_grados_minutos_a_decimal (tokens.getD 4 [])
                          ((tokens.getD 5 []).headD 0)
            altitud := atof (tokens.getD 9 []) })
    else (0, co)
  else (0, co)

/-- The globals `buffer_nmea` (256 cells) and `indice_buffer`. -/
structure Estado where
  buffer_nmea : List Nat
  indice_buffer : Int
  deriving DecidableEq

/-- State at program start: zero-initialised buffer, `indice_buffer = 0`. -/
def estado_inicial : Estado := { buffer_nmea := List.replicate 256 0, indice_buffer := 0 }

/-- The store `buffer_nmea[i] = c`; fails when `i` is not an index of the 256 cells. -/
def escribir (buf : List Nat) (i : Int) (c : Nat) : Option (List Nat) :=
  if 0 ≤ i ∧ i < 256 then some (buf.set i.toNat c) else none

/-- The finalising branch of `leer_datos_gps` once the terminator is stored: the prefilter
`strstr(buffer_nmea, "$GPGGA")` and, when it passes, `procesar_sentencia_nmea`. Returns the
decoder's result (`0` when the prefilter rejects) and the output values. -/
def prefiltro_y_decodificador (buffer : List Nat) (co : Coordenadas) : Int × Coordenadas :=
  if strstr (cadena buffer) (bytes "$GPGGA") then procesar_sentencia_nmea (cadena buffer) co
  else (0, co)

/-- What one call of `leer_datos_gps` leaves: its return value, the globals, the output
values, and the frames it finalised (the buffered characters at each finalisation), in order. -/
structure Salida where
  retorno : Int
  estado : Estado
  coords : Coordenadas
  sentencias : List (List Nat)
  deriving DecidableEq

/-- The `for` loop of `leer_datos_gps` over the bytes still to be processed. The comparison
`indice_buffer >= sizeof(buffer_nmea) - 1` is made in `size_t` (32 bits). -/
def bucle_bytes (s : Estado) (co : Coordenadas) : List Nat → Option Salida
  | [] => some { retorno := 0, estado := s, coords := co, sentencias := [] }
  | caracter_actual :: resto =>
    if caracter_actual = 10 ∨ s.indice_buffer % 4294967296 ≥ 255 then
      match escribir s.buffer_nmea s.indice_buffer 0 with
      | none => none
      | some buf =>
        let marco := buf.take s.indice_buffer.toNat
        let r : Int × Coordenadas := prefiltro_y_decodificador buf co
        if r.1 ≠ 0 then
          some { retorno := 1, estado := { buffer_nmea := buf, indice_buffer := 0 },
                 coords := r.2, sentencias := [marco] }
        else
          (bucle_bytes { buffer_nmea := buf, indice_buffer := 0 } r.2 resto).map
            (fun o => { o with sentencias := marco :: o.sentencias })
    else if caracter_actual = 13 then bucle_bytes s co resto
    else
      match escribir s.buffer_nmea s.indice_buffer caracter_actual with
      | none => none
      | some buf =>
        bucle_bytes { buffer_nmea := buf, indice_buffer := s.indice_buffer + 1 } co resto

/-- Source: `leer_datos_gps`, on the bytes returned by `uart_read_bytes` (`longitud_datos` is
their number; a timeout or an error gives no bytes). The NUL stored after the received bytes in
the local array is never read by the loop. -/
def leer_datos_gps (s : Estado) (datos_recibidos : List Nat) (co : Coordenadas) :
    Option Salida :=
  if datos_recibidos.length > 0 then bucle_bytes s co datos_recibidos
  else some { retorno := 0, estado := s, coords := co, sentencias := [] }

/-- What a run of successive calls leaves: the globals, the output values, the return value
of each call and all finalised frames, in order. -/
structure Acumulado where
  estado : Estado
  coords : Coordenadas
  retornos : List Int
  sentencias : List (List Nat)
  deriving DecidableEq

/-- Successive calls of `leer_datos_gps` (the polling loop of `app_main`), one per chunk. -/
def alimentar (s : Estado) (co : Coordenadas) : List (List Nat) → Option Acumulado
  | [] => some { estado := s, coords := co, retornos := [], sentencias := [] }
  | datos :: mas =>
    match leer_datos_gps s datos co with
    | none => none
    | some o =>
      (alimentar o.estado o.coords mas).map
        (fun a => { a with retornos := o.retorno :: a.retornos,
                           sentencias := o.sentencias ++ a.sentencias })

/-! ## The framer seen on the buffered characters -/

/-- The buffered characters of the frame being assembled: the first `indice_buffer` cells. -/
def contenido (s : Estado) : List Nat := s.buffer_nmea.take s.indice_buffer.toNat

/-- Well-formed globals: 256 cells and an index from 0 to 255. -/
def Inv (s : Estado) : Prop :=
  s.buffer_nmea.length = 256 ∧ 0 ≤ s.indice_buffer ∧ s.indice_buffer ≤ 255

/-- Result of the loop seen on the buffered characters alone. -/
structure SalidaM where
  retorno : Int
  marco : List Nat
  coords : Coordenadas
  sentencias : List (List Nat)

/-- Puts the frames `ss` before those of `o`. -/
def SalidaM.con (ss : List (List Nat)) (o : SalidaM) : SalidaM :=
  { retorno := o.retorno, marco := o.marco, coords := o.coords, sentencias := ss ++ o.sentencias }

/-- The loop of `leer_datos_gps` seen on the buffered characters `m` alone (the cells past
`indice_buffer` are never read); `bucle_bytes_marcos` relates it to `bucle_bytes`. -/
def bucle_marcos (m : List Nat) (co : Coordenadas) : List Nat → SalidaM
  | [] => { retorno := 0, marco := m, coords := co, sentencias := [] }
  | c :: resto =>
    if c = 10 ∨ 255 ≤ m.length then
      if (prefiltro_y_decodificador m co).1 ≠ 0 then
        { retorno := 1, marco := [], coords := (prefiltro_y_decodificador m co).2,
          sentencias := [m] }
      else
        SalidaM.con [m] (bucle_marcos [] (prefiltro_y_decodificador m co).2 resto)
    else if c = 13 then bucle_marcos m co resto
    else bucle_marcos (m ++ [c]) co resto

/-- Result of successive calls seen on the buffered characters alone. -/
structure AcumuladoM where
  marco : List Nat
  coords : Coordenadas
  retornos : List Int
  sentencias : List (List Nat)

/-- Successive calls seen on the buffered characters alone; `alimentar_marcos_spec` relates
it to `alimentar`. -/
def alimentar_marcos (m : List Nat) (co : Coordenadas) : List (List Nat) → AcumuladoM
  | [] => { marco := m, coords := co, retornos := [], sentencias := [] }
  | datos :: mas =>
    { marco := (alimentar_marcos (bucle_marcos m co datos).marco
                  (bucle_marcos m co datos).coords mas).marco
      coords := (alimentar_marcos (bucle_marcos m co datos).marco
                  (bucle_marcos m co datos).coords mas).coords
      retornos := (bucle_marcos m co datos).retorno ::
        (alimentar_marcos (bucle_marcos m co datos).marco
          (bucle_marcos m co datos).coords mas).retornos
      sentencias := (bucle_marcos m co datos).sentencias ++
        (alimentar_marcos (bucle_marcos m co datos).marco
          (bucle_marcos m co datos).coords mas).sentencias }

/-- Puts the frames `ss` before those of the call result `o`. -/
def Salida.con (ss : List (List Nat)) (o : Salida) : Salida :=
  { o with sentencias := ss ++ o.sentencias }

/-! ## The main loop -/

/-- One pass of the `while (1)` loop of `app_main` on `contador_conexion`, given the value
`retorno` of `leer_datos_gps` in that cycle: the new counter and whether
`"Coordinates: Connecting..."` is printed. The C remainder `%` truncates toward zero. The
`int` counter is taken as an integer: it counts the consecutive cycles without Fix
(`contador_tras_eq`), so it stays in the range of `int` below `2^31` such cycles. -/
def ciclo (contador_conexion : Int) (retorno : Int) : Int × Bool :=
  if retorno ≠ 0 then (0, false)
  else (contador_conexion + 1, decide ((contador_conexion + 1).tmod 10 = 0))

/-- Value of `contador_conexion` after the cycles whose `leer_datos_gps` results are `rs`,
starting from 0. -/
def contador_tras (rs : List Int) : Int := rs.foldl (fun c r => (ciclo c r).1) 0

/-- Number of consecutive cycles without Fix at the end of the results `rs`: the cycles since
the last Fix, or since the start. -/
def sin_fix_seguidos (rs : List Int) : Nat := (rs.reverse.takeWhile (fun r => r == 0)).length

/-! ## Binary floating point

The definitions above take `float` in exact arithmetic. The definitions of this section follow
the program in IEEE 754 arithmetic: `atof` returns a `double` (binary64), the `float`
variables are binary32, every operation rounds to nearest (ties to even), and `int` has 32
bits. A finite floating-point value is the rational number it stands for (the two zeros are
one value); `none` stands for a value that is not a finite number (an infinity or a NaN). -/

/-- Rounding of a rational to the nearest integer, ties to the even one. -/
def redondear_par (y : ℚ) : Int :=
  if y - (⌊y⌋ : ℚ) < 1 / 2 then ⌊y⌋
  else if 1 / 2 < y - (⌊y⌋ : ℚ) then ⌊y⌋ + 1
  else if ⌊y⌋ % 2 = 0 then ⌊y⌋ else ⌊y⌋ + 1

/-- Number of halvings that bring `n` below 2, at most `pasos` of them; with `pasos = n` this
is the integer binary logarithm of `n ≥ 1`. -/
def log2_pasos : Nat → Nat → Nat
  | 0, _ => 0
  | pasos + 1, n => if n < 2 then 0 else log2_pasos pasos (n / 2) + 1

/-- Binary exponent of a non-zero rational: the `e` with `2^e ≤ |x| < 2^(e+1)`. -/
def exponente2 (x : ℚ) : Int :=
  if 1 ≤ |x| then (log2_pasos ⌊|x|⌋.toNat ⌊|x|⌋.toNat : Int)
  else -((log2_pasos (⌈1 / |x|⌉.toNat - 1) (⌈1 / |x|⌉.toNat - 1) + 1 : Nat) : Int)

/-- Rounding to nearest, ties to even, in a binary format with `p` significant bits whose
smallest spacing is `2^qmin`, the exponent range being unbounded above: the nearest multiple
of `2^max(e - (p - 1), qmin)`, where `e` is the binary exponent of `x`. -/
def redondear_binario (p : Nat) (qmin : Int) (x : ℚ) : ℚ :=
  if x = 0 then 0
  else (redondear_par (x / (2 : ℚ) ^ max (exponente2 x - ((p : Int) - 1)) qmin) : ℚ)
         * (2 : ℚ) ^ max (exponente2 x - ((p : Int) - 1)) qmin

/-- Rounding to binary32 (24 significant bits, subnormal spacing `2^-149`), without the
bound on the exponent. -/
def redondear32 (x : ℚ) : ℚ := redondear_binario 24 (-149) x

/-- The `float` nearest to `x`; `none` (an infinity) when the rounded magnitude reaches
`2^128`. -/
def a_binary32 (x : ℚ) : Option ℚ :=
  if |redondear32 x| < (2 : ℚ) ^ (128 : Nat) then some (redondear32 x) else none

/-- The `double` nearest to `x` (53 significant bits, subnormal spacing `2^-1074`); `none`
(an infinity) when the rounded magnitude reaches `2^1024`. -/
def a_binary64 (x : ℚ) : Option ℚ :=
  if |redondear_binario 53 (-1074) x| < (2 : ℚ) ^ (1024 : Nat) then
    some (redondear_binario 53 (-1074) x)
  else none

/-- C `isxdigit`. -/
def isxdigit (c : Nat) : Bool := isdigit c || (97 ≤ c && c ≤ 102) || (65 ≤ c && c ≤ 70)

/-- Value of a hexadecimal digit. -/
def valor_hex (c : Nat) : Nat :=
  if isdigit c then c - 48 else if 97 ≤ c then c - 87 else c - 55

/-- Reads a run of hexadecimal digits: the accumulated value, the number of digits read and
the text that follows them. -/
def leer_hex : List Nat → Nat → Nat → Nat × Nat × List Nat
  | [], acc, n => (acc, n, [])
  | c :: r, acc, n =>
    if isxdigit c then leer_hex r (acc * 16 + valor_hex c) (n + 1) else (acc, n, c :: r)

/-- Binary exponent part of a hexadecimal numeral (`p`/`P`, optional sign, at least one
decimal digit); `0` when absent. -/
def leer_exponente_binario : List Nat → Int
  | [] => 0
  | c :: r =>
    if c = 112 ∨ c = 80 then
      match leer_digitos (leer_signo r).2 0 0 with
      | (ev, en, _) => if en = 0 then 0 else if (leer_signo r).1 then -(ev : Int) else (ev : Int)
    else 0

/-- Whether the text (after white space and sign) begins with a hexadecimal numeral of
`strtod`: `0x` or `0X` followed by a hexadecimal digit, or by `.` and a hexadecimal digit. -/
def es_hexadecimal : List Nat → Bool
  | 48 :: x :: c :: r =>
    (x == 120 || x == 88)
      && (isxdigit c || (c == 46 && match r with
                                    | d :: _ => isxdigit d
                                    | [] => false))
  | _ => false

/-- Exact value of the hexadecimal numeral whose digits start the text (the text after
`0x`): hexadecimal digits with an optional fraction, optional binary exponent. -/
def valor_hexadecimal (s3 : List Nat) : ℚ :=
  match leer_hex s3 0 0 with
  | (m1, _, s4) =>
    match (match s4 with
           | 46 :: r => leer_hex r m1 0
           | _ => (m1, 0, s4)) with
    | (m2, n2, s5) => (m2 : ℚ) * (2 : ℚ) ^ (leer_exponente_binario s5 - 4 * (n2 : Int))

/-- Lower-case form of an ASCII letter. -/
def tolower (c : Nat) : Nat := if 65 ≤ c ∧ c ≤ 90 then c + 32 else c

/-- Whether the text (after white space and sign) begins with `inf` or `nan` in any letter
case: the spellings `strtod` reads as an infinity or a NaN. -/
def es_inf_o_nan (s2 : List Nat) : Bool :=
  [105, 110, 102].isPrefixOf ((s2.take 3).map tolower)
    || [110, 97, 110].isPrefixOf ((s2.take 3).map tolower)

/-- C `atof` (that is `strtod`), the `double` it returns: leading white space, optional sign,
then `inf`/`nan` (not a finite number: `none`), a hexadecimal numeral, or decimal notation as
in `atof` above; the value is rounded to binary64, `none` when it overflows. Text that starts
with none of these converts to `0`. -/
def atof_binary64 (s : List Nat) : Option ℚ :=
  match leer_signo (s.dropWhile isspace) with
  | (neg, s2) =>
    if es_inf_o_nan s2 then none
    else if es_hexadecimal s2 then
      a_binary64 (if neg then -valor_hexadecimal (s2.drop 2) else valor_hexadecimal (s2.drop 2))
    else a_binary64 (atof s)

/-- The conversion of `atof`'s `double` to `float`, as in `float x = atof(...)`. -/
def atof_binary32 (s : List Nat) : Option ℚ := (atof_binary64 s).bind a_binary32

/-- The conversion `(int)x` of a finite `float` to the 32-bit `int`: truncation toward zero;
undefined (`none`) when the integral part is outside the range of `int`. -/
def a_int (x : ℚ) : Option Int :=
  if -2147483648 ≤ truncar x ∧ truncar x ≤ 2147483647 then some (truncar x) else none

/-- Source: `convertir_grados_minutos_a_decimal`, in binary32 with a 32-bit `int`. The result
is `none` when the program has no defined finite result: `valor_grados_minutos` is not a
finite number, or the quotient is outside `int` (the cast is undefined); once the cast is
defined no later operation overflows (`convertir_binary32_definido`). The `int` operand of
`*` and `+` is converted to `float`; every operation rounds on its own (the product and the
subtraction are not fused). -/
def convertir_grados_minutos_a_decimal_binary32 (grados_minutos : List Nat) (direccion : Nat) :
    Option ℚ :=
  (atof_binary32 grados_minutos).bind fun valor_grados_minutos =>
  (a_binary32 (valor_grados_minutos / 100)).bind fun cociente =>
  (a_int cociente).bind fun grados_enteros =>
  (a_binary32 (grados_enteros : ℚ)).bind fun grados_float =>
  (a_binary32 (grados_float * 100)).bind fun producto =>
  (a_binary32 (valor_grados_minutos - producto)).bind fun minutos_decimal =>
  (a_binary32 (minutos_decimal / 60)).bind fun minutos_sobre_60 =>
  (a_binary32 (grados_float + minutos_sobre_60)).bind fun grados_decimal =>
  some (if direccion = 83 ∨ direccion = 87 then -grados_decimal else grados_decimal)

/-- The three `float` outputs in binary32; `none` is a value that is not a finite number. -/
structure Coordenadas_binary32 where
  latitud : Option ℚ
  longitud : Option ℚ
  altitud : Option ℚ
  deriving DecidableEq

/-- Source: `procesar_sentencia_nmea`, in binary32. Returns the `int` result and the output
values; `none` when one of the two conversions of degrees and minutes is undefined. -/
def procesar_sentencia_nmea_binary32 (sentencia_nmea : List Nat) (co : Coordenadas_binary32) :
    Option (Int × Coordenadas_binary32) :=
  let copia_sentencia := (cadena sentencia_nmea).take 255
  let tokens := bucle_tokens 20 copia_sentencia
  let contador_tokens := tokens.length
  if contador_tokens ≥ 10 then
    if (tokens.getD 2 []).length > 0 ∧ (tokens.getD 4 []).length > 0
        ∧ (tokens.getD 9 []).length > 0 then
      (convertir_grados_minutos_a_decimal_binary32 (tokens.getD 2 [])
          ((tokens.getD 3 []).headD 0)).bind fun latitud =>
      (convertir_grados_minutos_a_decimal_binary32 (tokens.getD 4 [])
          ((tokens.getD 5 []).headD 0)).bind fun longitud =>
      some (1, { latitud := some latitud
                 longitud := some longitud
                 altitud := atof_binary32 (tokens.getD 9 []) })
    else some (0, co)
  else some (0, co)

/-- Text from which `strtod` converts nothing: after optional white space and sign it does
not begin with a digit, nor with `.` and a digit, nor with `inf` or `nan` in any letter
case. -/
def sin_conversion (t : List Nat) : Bool :=
  match (leer_signo (t.dropWhile isspace)).2 with
  | [] => true
  | c :: r =>
    !isdigit c
      && !(c == 46 && match r with
                      | d :: _ => isdigit d
                      | [] => false)
      && !es_inf_o_nan (c :: r)

/-- The formula of the specification for a parsed value `v`, every operation rounded by
`rd`: whole degrees `floor(v/100)`, minutes `v - wholeDegrees * 100`, result
`wholeDegrees + minutes / 60`. -/
def formula_grados (rd : ℚ → ℚ) (v : ℚ) : ℚ :=
  let wholeDegrees : ℚ := rd (⌊rd (v / 100)⌋ : ℚ)
  let minutes : ℚ := rd (v - rd (wholeDegrees * 100))
  rd (wholeDegrees + rd (minutes / 60))

/-! ## Buffer lemmas and the relation between the two views -/

theorem cadena_set_cero : ∀ (buf : List Nat) (n : Nat), n < buf.length →
    cadena (buf.set n 0) = cadena (buf.take n)
  | [], n, h => by simp at h
  | b :: bs, 0, _ => by simp [cadena]
  | b :: bs, n + 1, h => by
    have ih := cadena_set_cero bs n (by simpa using h)
    simp only [cadena] at ih ⊢
    simp [List.takeWhile_cons, ih]

theorem cadena_idem (l : List Nat) : cadena (cadena l) = cadena l := by
  induction l with
  | nil => rfl
  | cons a l ih =>
    simp only [cadena] at ih ⊢
    by_cases h : a = 0 <;> simp [List.takeWhile_cons, h, ih]

theorem prefiltro_set_cero (buf : List Nat) (n : Nat) (h : n < buf.length) (co : Coordenadas) :
    prefiltro_y_decodificador (buf.set n 0) co = prefiltro_y_decodificador (buf.take n) co := by
  simp [prefiltro_y_decodificador, cadena_set_cero buf n h]

theorem take_set_succ : ∀ (buf : List Nat) (n : Nat) (c : Nat), n < buf.length →
    (buf.set n c).take (n + 1) = buf.take n ++ [c]
  | [], n, c, h => by simp at h
  | b :: bs, 0, c, _ => by simp
  | b :: bs, n + 1, c, h => by
    have ih := take_set_succ bs n c (by simpa using h)
    simp [ih]

theorem take_set_self (buf : List Nat) (n : Nat) (c : Nat) :
    (buf.set n c).take n = buf.take n := by
  induction buf generalizing n with
  | nil => simp
  | cons b bs ih => cases n <;> simp [ih]

theorem contenido_length (s : Estado) (h : Inv s) : (contenido s).length = s.indice_buffer.toNat := by
  obtain ⟨h1, h2, h3⟩ := h
  simp [contenido, h1]; omega

theorem bucle_bytes_marcos (datos : List Nat) : ∀ (s : Estado) (co : Coordenadas), Inv s →
    ∃ o, bucle_bytes s co datos = some o ∧ Inv o.estado
      ∧ o.retorno = (bucle_marcos (contenido s) co datos).retorno
      ∧ contenido o.estado = (bucle_marcos (contenido s) co datos).marco
      ∧ o.coords = (bucle_marcos (contenido s) co datos).coords
      ∧ o.sentencias = (bucle_marcos (contenido s) co datos).sentencias := by
  induction datos with
  | nil => intro s co h; exact ⟨_, rfl, h, rfl, rfl, rfl, rfl⟩
  | cons c resto ih =>
    intro s co h
    have hlen := contenido_length s h
    obtain ⟨h1, h2, h3⟩ := h
    have hmod : s.indice_buffer % 4294967296 = s.indice_buffer := by omega
    have hidx : s.indice_buffer.toNat < s.buffer_nmea.length := by omega
    have hesc : ∀ x, escribir s.buffer_nmea s.indice_buffer x
        = some (s.buffer_nmea.set s.indice_buffer.toNat x) := by
      intro x; simp only [escribir]; rw [if_pos]; omega
    by_cases hfin : c = 10 ∨ s.indice_buffer % 4294967296 ≥ 255
    · have hfinM : c = 10 ∨ 255 ≤ (contenido s).length := by
        rcases hfin with hc | hc
        · exact Or.inl hc
        · right; omega
      have hpre : prefiltro_y_decodificador (s.buffer_nmea.set s.indice_buffer.toNat 0) co
          = prefiltro_y_decodificador (contenido s) co :=
        prefiltro_set_cero _ _ hidx co
      have htk : (s.buffer_nmea.set s.indice_buffer.toNat 0).take s.indice_buffer.toNat
          = contenido s := take_set_self _ _ _
      have hInv0 : Inv (Estado.mk (s.buffer_nmea.set s.indice_buffer.toNat 0) 0) := by
        refine ⟨?_, ?_, ?_⟩ <;> simp [h1]
      have hc0 : contenido (Estado.mk (s.buffer_nmea.set s.indice_buffer.toNat 0) 0) = [] := by simp [contenido]
      simp only [bucle_bytes, bucle_marcos, if_pos hfin, if_pos hfinM, hesc, hpre, htk]
      by_cases hr : (prefiltro_y_decodificador (contenido s) co).1 ≠ 0
      · simp only [if_pos hr]
        exact ⟨_, rfl, hInv0, rfl, hc0, rfl, rfl⟩
      · simp only [if_neg hr]
        obtain ⟨o, ho, hoI, ho1, ho2, ho3, ho4⟩ :=
          ih _ (prefiltro_y_decodificador (contenido s) co).2 hInv0
        rw [hc0] at ho1 ho2 ho3 ho4
        refine ⟨{ o with sentencias := contenido s :: o.sentencias }, ?_, hoI, ?_, ?_, ?_, ?_⟩
        · rw [ho]; rfl
        · simpa [SalidaM.con] using ho1
        · simpa [SalidaM.con] using ho2
        · simpa [SalidaM.con] using ho3
        · simp [SalidaM.con, ho4]
    · have hfinM : ¬ (c = 10 ∨ 255 ≤ (contenido s).length) := by
        intro hh; apply hfin
        rcases hh with hc | hc
        · exact Or.inl hc
        · right; omega
      by_cases hcr : c = 13
      · simp only [bucle_bytes, bucle_marcos, if_neg hfin, if_neg hfinM, if_pos hcr]
        exact ih s co ⟨h1, h2, h3⟩
      · have hlt : s.indice_buffer < 255 := by
          by_contra hh; apply hfin; right; omega
        have hInv1 : Inv (Estado.mk (s.buffer_nmea.set s.indice_buffer.toNat c) (s.indice_buffer + 1)) := by
          refine ⟨?_, ?_, ?_⟩ <;> simp [h1] <;> omega
        have hc1 : contenido (Estado.mk (s.buffer_nmea.set s.indice_buffer.toNat c)
            (s.indice_buffer + 1)) = contenido s ++ [c] := by
          have : (s.indice_buffer + 1).toNat = s.indice_buffer.toNat + 1 := by omega
          simp only [contenido, this]
          exact take_set_succ _ _ _ hidx
        simp only [bucle_bytes, bucle_marcos, if_neg hfin, if_neg hfinM, if_neg hcr, hesc]
        obtain ⟨o, ho, hoI, ho1, ho2, ho3, ho4⟩ := ih _ co hInv1
        rw [hc1] at ho1 ho2 ho3 ho4
        exact ⟨o, ho, hoI, ho1, ho2, ho3, ho4⟩

theorem leer_datos_gps_eq (s : Estado) (datos : List Nat) (co : Coordenadas) :
    leer_datos_gps s datos co = bucle_bytes s co datos := by
  cases datos with
  | nil => simp [leer_datos_gps, bucle_bytes]
  | cons c r => simp [leer_datos_gps]

theorem alimentar_marcos_spec (chunks : List (List Nat)) : ∀ (s : Estado) (co : Coordenadas),
    Inv s →
    ∃ a, alimentar s co chunks = some a ∧ Inv a.estado
      ∧ contenido a.estado = (alimentar_marcos (contenido s) co chunks).marco
      ∧ a.coords = (alimentar_marcos (contenido s) co chunks).coords
      ∧ a.retornos = (alimentar_marcos (contenido s) co chunks).retornos
      ∧ a.sentencias = (alimentar_marcos (contenido s) co chunks).sentencias := by
  induction chunks with
  | nil => intro s co h; exact ⟨_, rfl, h, rfl, rfl, rfl, rfl⟩
  | cons d mas ih =>
    intro s co h
    obtain ⟨o, ho, hoI, ho1, ho2, ho3, ho4⟩ := bucle_bytes_marcos d s co h
    obtain ⟨a, ha, haI, ha1, ha2, ha3, ha4⟩ := ih o.estado o.coords hoI
    rw [ho2, ho3] at ha1 ha2 ha3 ha4
    refine ⟨{ a with retornos := o.retorno :: a.retornos,
                     sentencias := o.sentencias ++ a.sentencias }, ?_, haI, ha1, ha2, ?_, ?_⟩
    · simp only [alimentar, leer_datos_gps_eq, ho, ha]; rfl
    · simp [alimentar_marcos, ha3, ho1]
    · simp [alimentar_marcos, ha4, ho4]

@[simp] theorem SalidaM.con_retorno (ss : List (List Nat)) (o : SalidaM) :
    (SalidaM.con ss o).retorno = o.retorno := rfl

@[simp] theorem SalidaM.con_marco (ss : List (List Nat)) (o : SalidaM) :
    (SalidaM.con ss o).marco = o.marco := rfl

@[simp] theorem SalidaM.con_coords (ss : List (List Nat)) (o : SalidaM) :
    (SalidaM.con ss o).coords = o.coords := rfl

@[simp] theorem SalidaM.con_sentencias (ss : List (List Nat)) (o : SalidaM) :
    (SalidaM.con ss o).sentencias = ss ++ o.sentencias := rfl

theorem SalidaM.con_con (ss ts : List (List Nat)) (o : SalidaM) :
    SalidaM.con ss (SalidaM.con ts o) = SalidaM.con (ss ++ ts) o := by
  simp [SalidaM.con]

theorem SalidaM.con_nil (o : SalidaM) : SalidaM.con [] o = o := rfl

theorem bucle_marcos_nil (m : List Nat) (co : Coordenadas) :
    bucle_marcos m co [] = { retorno := 0, marco := m, coords := co, sentencias := [] } := rfl

theorem bucle_marcos_cons (m : List Nat) (co : Coordenadas) (c : Nat) (resto : List Nat) :
    bucle_marcos m co (c :: resto) =
      if c = 10 ∨ 255 ≤ m.length then
        if (prefiltro_y_decodificador m co).1 ≠ 0 then
          { retorno := 1, marco := [], coords := (prefiltro_y_decodificador m co).2,
            sentencias := [m] }
        else SalidaM.con [m] (bucle_marcos [] (prefiltro_y_decodificador m co).2 resto)
      else if c = 13 then bucle_marcos m co resto
      else bucle_marcos (m ++ [c]) co resto := rfl

theorem bucle_marcos_retorno (datos : List Nat) : ∀ (m : List Nat) (co : Coordenadas),
    (bucle_marcos m co datos).retorno = 0 ∨ (bucle_marcos m co datos).retorno = 1 := by
  induction datos with
  | nil => intro m co; left; rfl
  | cons c r ih =>
    intro m co
    rw [bucle_marcos_cons]
    split
    · split
      · right; rfl
      · exact ih _ _
    · split
      · exact ih _ _
      · exact ih _ _

theorem bucle_marcos_fin_fix (m : List Nat) (co : Coordenadas) (c : Nat) (resto : List Nat)
    (hfin : c = 10 ∨ 255 ≤ m.length) (hr : (prefiltro_y_decodificador m co).1 ≠ 0) :
    bucle_marcos m co (c :: resto) =
      { retorno := 1, marco := [], coords := (prefiltro_y_decodificador m co).2,
        sentencias := [m] } := by
  rw [bucle_marcos_cons, if_pos hfin, if_pos hr]

theorem bucle_marcos_fin_nofix (m : List Nat) (co : Coordenadas) (c : Nat) (resto : List Nat)
    (hfin : c = 10 ∨ 255 ≤ m.length) (hr : (prefiltro_y_decodificador m co).1 = 0) :
    bucle_marcos m co (c :: resto) =
      SalidaM.con [m] (bucle_marcos [] (prefiltro_y_decodificador m co).2 resto) := by
  rw [bucle_marcos_cons, if_pos hfin, if_neg (by simpa using hr)]

theorem bucle_marcos_cr (m : List Nat) (co : Coordenadas) (resto : List Nat)
    (hlen : m.length < 255) :
    bucle_marcos m co (13 :: resto) = bucle_marcos m co resto := by
  rw [bucle_marcos_cons, if_neg (by omega), if_pos rfl]

theorem bucle_marcos_char (m : List Nat) (co : Coordenadas) (c : Nat) (resto : List Nat)
    (hlen : m.length < 255) (h10 : c ≠ 10) (h13 : c ≠ 13) :
    bucle_marcos m co (c :: resto) = bucle_marcos (m ++ [c]) co resto := by
  rw [bucle_marcos_cons, if_neg (by omega), if_neg h13]

theorem bucle_marcos_append (xs ys : List Nat) : ∀ (m : List Nat) (co : Coordenadas),
    (bucle_marcos m co xs).retorno = 0 →
    bucle_marcos m co (xs ++ ys) =
      SalidaM.con (bucle_marcos m co xs).sentencias
        (bucle_marcos (bucle_marcos m co xs).marco (bucle_marcos m co xs).coords ys) := by
  induction xs with
  | nil => intro m co _; simp [bucle_marcos_nil, SalidaM.con_nil]
  | cons c r ih =>
    intro m co h
    rw [List.cons_append]
    by_cases hfin : c = 10 ∨ 255 ≤ m.length
    · by_cases hr : (prefiltro_y_decodificador m co).1 = 0
      · rw [bucle_marcos_fin_nofix m co c r hfin hr] at h ⊢
        rw [bucle_marcos_fin_nofix m co c (r ++ ys) hfin hr]
        rw [SalidaM.con_retorno] at h
        rw [ih _ _ h, SalidaM.con_con]
        simp
      · rw [bucle_marcos_fin_fix m co c r hfin hr] at h
        simp at h
    · have hlen : m.length < 255 := by
        by_contra hh; exact hfin (Or.inr (by omega))
      have h10 : c ≠ 10 := fun hh => hfin (Or.inl hh)
      by_cases hcr : c = 13
      · subst hcr
        rw [bucle_marcos_cr m co r hlen] at h ⊢
        rw [bucle_marcos_cr m co (r ++ ys) hlen]
        exact ih _ _ h
      · rw [bucle_marcos_char m co c r hlen h10 hcr] at h ⊢
        rw [bucle_marcos_char m co c (r ++ ys) hlen h10 hcr]
        exact ih _ _ h

theorem bucle_marcos_append_fix (xs ys : List Nat) : ∀ (m : List Nat) (co : Coordenadas),
    (bucle_marcos m co xs).retorno ≠ 0 →
    bucle_marcos m co (xs ++ ys) = bucle_marcos m co xs := by
  induction xs with
  | nil => intro m co h; simp [bucle_marcos_nil] at h
  | cons c r ih =>
    intro m co h
    rw [List.cons_append]
    by_cases hfin : c = 10 ∨ 255 ≤ m.length
    · by_cases hr : (prefiltro_y_decodificador m co).1 = 0
      · rw [bucle_marcos_fin_nofix m co c r hfin hr] at h ⊢
        rw [bucle_marcos_fin_nofix m co c (r ++ ys) hfin hr]
        rw [SalidaM.con_retorno] at h
        rw [ih _ _ h]
      · rw [bucle_marcos_fin_fix m co c r hfin hr, bucle_marcos_fin_fix m co c (r ++ ys) hfin hr]
    · have hlen : m.length < 255 := by
        by_contra hh; exact hfin (Or.inr (by omega))
      have h10 : c ≠ 10 := fun hh => hfin (Or.inl hh)
      by_cases hcr : c = 13
      · subst hcr
        rw [bucle_marcos_cr m co r hlen] at h ⊢
        rw [bucle_marcos_cr m co (r ++ ys) hlen]
        exact ih _ _ h
      · rw [bucle_marcos_char m co c r hlen h10 hcr] at h ⊢
        rw [bucle_marcos_char m co c (r ++ ys) hlen h10 hcr]
        exact ih _ _ h

theorem bucle_marcos_tramo (xs resto : List Nat) : ∀ (m : List Nat) (co : Coordenadas),
    10 ∉ xs → m.length + (xs.filter (fun c => c != 13)).length < 255 →
    bucle_marcos m co (xs ++ resto) = bucle_marcos (m ++ xs.filter (fun c => c != 13)) co resto := by
  induction xs with
  | nil => intro m co _ _; simp
  | cons c r ih =>
    intro m co h10 hlen
    have hc : c ≠ 10 := fun h => h10 (by simp [h])
    have hr : 10 ∉ r := fun h => h10 (by simp [h])
    rw [List.cons_append]
    by_cases hcr : c = 13
    · subst hcr
      have hlen2 : m.length + (r.filter (fun c => c != 13)).length < 255 := by
        simpa using hlen
      rw [bucle_marcos_cr m co _ (by omega), ih m co hr hlen2]
      simp
    · have hf : (c :: r).filter (fun c => c != 13) = c :: r.filter (fun c => c != 13) := by
        simp [List.filter_cons, hcr]
      rw [hf] at hlen ⊢
      simp only [List.length_cons] at hlen
      rw [bucle_marcos_char m co c _ (by omega) hc hcr, ih (m ++ [c]) co hr (by simp; omega)]
      simp

theorem alimentar_marcos_vacios (mas : List (List Nat)) : ∀ (m : List Nat) (co : Coordenadas),
    mas.flatten = [] →
    (alimentar_marcos m co mas).marco = m ∧ (alimentar_marcos m co mas).coords = co
      ∧ (alimentar_marcos m co mas).sentencias = []
      ∧ ∀ r ∈ (alimentar_marcos m co mas).retornos, r = 0 := by
  induction mas with
  | nil => intro m co _; simp [alimentar_marcos]
  | cons d mas ih =>
    intro m co h
    simp only [List.flatten_cons, List.append_eq_nil] at h
    obtain ⟨hd, hm⟩ := h
    subst hd
    obtain ⟨h1, h2, h3, h4⟩ := ih m co hm
    simp only [alimentar_marcos, bucle_marcos_nil]
    refine ⟨h1, h2, by simp [h3], ?_⟩
    intro r hr
    simp only [List.mem_cons] at hr
    rcases hr with hr | hr
    · exact hr
    · exact h4 r hr

theorem alimentar_marcos_join (chunks : List (List Nat)) :
    ∀ (m : List Nat) (co : Coordenadas) (xs : List Nat) (c : Nat),
    chunks.flatten = xs ++ [c] → (bucle_marcos m co xs).retorno = 0 →
    (alimentar_marcos m co chunks).marco = (bucle_marcos m co (xs ++ [c])).marco
      ∧ (alimentar_marcos m co chunks).coords = (bucle_marcos m co (xs ++ [c])).coords
      ∧ (alimentar_marcos m co chunks).sentencias = (bucle_marcos m co (xs ++ [c])).sentencias
      ∧ (1 ∈ (alimentar_marcos m co chunks).retornos ↔ (bucle_marcos m co (xs ++ [c])).retorno = 1)
      ∧ ∀ r ∈ (alimentar_marcos m co chunks).retornos, r = 0 ∨ r = 1 := by
  induction chunks with
  | nil => intro m co xs c h _; simp at h
  | cons d mas ih =>
    intro m co xs c h h0
    rw [List.flatten_cons] at h
    rcases List.eq_nil_or_concat mas.flatten with hnil | ⟨ys, c2, hys⟩
    · rw [hnil, List.append_nil] at h
      subst h
      obtain ⟨h1, h2, h3, h4⟩ := alimentar_marcos_vacios mas
        (bucle_marcos m co (xs ++ [c])).marco (bucle_marcos m co (xs ++ [c])).coords hnil
      simp only [alimentar_marcos]
      refine ⟨h1, h2, by simp [h3], ?_, ?_⟩
      · constructor
        · intro hm
          simp only [List.mem_cons] at hm
          rcases hm with hm | hm
          · exact hm.symm
          · have := h4 1 hm; simp at this
        · intro hm; simp [hm]
      · intro r hr
        simp only [List.mem_cons] at hr
        rcases hr with hr | hr
        · rw [hr]; exact bucle_marcos_retorno _ _ _
        · exact Or.inl (h4 r hr)
    · rw [List.concat_eq_append] at hys
      rw [hys, ← List.append_assoc] at h
      have hxs : d ++ ys = xs := List.append_inj_left' h rfl
      have hc : c2 = c := by
        have := List.append_inj_right' h rfl
        simpa using this
      subst hxs; subst hc
      have hd0 : (bucle_marcos m co d).retorno = 0 := by
        by_contra hne
        rw [bucle_marcos_append_fix d ys m co hne] at h0
        exact hne h0
      have hys0 : (bucle_marcos (bucle_marcos m co d).marco (bucle_marcos m co d).coords ys).retorno
          = 0 := by
        rw [bucle_marcos_append d ys m co hd0] at h0
        simpa using h0
      obtain ⟨h1, h2, h3, h4, h5⟩ := ih _ _ ys c2 hys hys0
      rw [List.append_assoc, bucle_marcos_append d (ys ++ [c2]) m co hd0]
      simp only [alimentar_marcos, SalidaM.con_marco, SalidaM.con_coords, SalidaM.con_sentencias,
        SalidaM.con_retorno]
      refine ⟨h1, h2, by rw [h3], ?_, ?_⟩
      · rw [← h4, hd0]; simp
      · intro r hr
        simp only [List.mem_cons] at hr
        rcases hr with hr | hr
        · exact Or.inl (hr.trans hd0)
        · exact h5 r hr

theorem bucle_marcos_fin_solo (m : List Nat) (co : Coordenadas) (c : Nat)
    (hfin : c = 10 ∨ 255 ≤ m.length) :
    bucle_marcos m co [c] =
      { retorno := if (prefiltro_y_decodificador m co).1 ≠ 0 then 1 else 0, marco := [],
        coords := (prefiltro_y_decodificador m co).2, sentencias := [m] } := by
  by_cases hr : (prefiltro_y_decodificador m co).1 = 0
  · rw [bucle_marcos_fin_nofix m co c [] hfin hr, bucle_marcos_nil]
    simp [SalidaM.con, hr]
  · rw [bucle_marcos_fin_fix m co c [] hfin hr, if_pos hr]

theorem indice_cero_de_contenido (s : Estado) (h : Inv s) (hc : contenido s = []) :
    s.indice_buffer = 0 := by
  have := contenido_length s h
  rw [hc] at this
  obtain ⟨_, h2, _⟩ := h
  simp at this
  omega

theorem contenido_de_indice_cero (s : Estado) (h : s.indice_buffer = 0) : contenido s = [] := by
  simp [contenido, h]


theorem inv_estado_inicial : Inv estado_inicial :=
  ⟨List.length_replicate 256 0, le_refl 0, by show (0 : Int) ≤ 255; omega⟩

theorem truncar_nonneg (q : ℚ) (h : 0 ≤ q) : truncar q = ⌊q⌋ := by
  simp [truncar, h]

theorem strtok_token_ne (p t r : List Nat) (h : strtok p = some (t, r)) : t ≠ [] := by
  unfold strtok at h
  split at h
  · simp at h
  · rename_i c q hq
    simp only [Option.some.injEq, Prod.mk.injEq] at h
    have hc : (fun c => c != 44) c = true := by
      by_contra hcon
      have hmem : c ∈ List.dropWhile (fun c => c == 44) p := by rw [hq]; simp
      have hh := List.head_dropWhile_not (fun c => c == 44) p
      rw [hq] at hh
      simp at hh hcon
      exact hh hcon
    rw [← h.1, List.takeWhile_cons, if_pos hc]
    simp

theorem bucle_tokens_ne (n : Nat) : ∀ (p : List Nat), ∀ t ∈ bucle_tokens n p, t ≠ [] := by
  induction n with
  | zero => intro p t ht; simp [bucle_tokens] at ht
  | succ n ih =>
    intro p t ht
    unfold bucle_tokens at ht
    split at ht
    · simp at ht
    · rename_i tok resto hs
      simp only [List.mem_cons] at ht
      rcases ht with ht | ht
      · rw [ht]; exact strtok_token_ne p tok resto hs
      · exact ih resto t ht

theorem getD_length_pos (l : List (List Nat)) (hne : ∀ t ∈ l, t ≠ []) (i : Nat)
    (hi : i < l.length) : (l.getD i []).length > 0 := by
  have hmem : l.getD i [] ∈ l := by
    rw [List.getD_eq_getElem l [] hi]
    exact List.getElem_mem hi
  exact List.length_pos.mpr (hne _ hmem)

theorem procesar_retorno_iff (s : List Nat) (co : Coordenadas) :
    ((procesar_sentencia_nmea s co).1 = 1 ↔ 10 ≤ (bucle_tokens 20 ((cadena s).take 255)).length)
      ∧ ((procesar_sentencia_nmea s co).1 = 0 ∨ (procesar_sentencia_nmea s co).1 = 1)
      ∧ ((procesar_sentencia_nmea s co).1 = 0 → (procesar_sentencia_nmea s co).2 = co) := by
  have hne := bucle_tokens_ne 20 ((cadena s).take 255)
  by_cases h10 : 10 ≤ (bucle_tokens 20 ((cadena s).take 255)).length
  · have h2 := getD_length_pos _ hne 2 (by omega)
    have h4 := getD_length_pos _ hne 4 (by omega)
    have h9 := getD_length_pos _ hne 9 (by omega)
    simp only [procesar_sentencia_nmea, ge_iff_le, if_pos h10, if_pos (And.intro h2 (And.intro h4 h9))]
    simp [h10]
  · simp only [procesar_sentencia_nmea, ge_iff_le, if_neg h10]
    simp [h10]

theorem prefiltro_retorno_iff (m : List Nat) (co : Coordenadas) :
    ((prefiltro_y_decodificador m co).1 ≠ 0 ↔
        strstr (cadena m) (bytes "$GPGGA") = true
          ∧ 10 ≤ (bucle_tokens 20 ((cadena m).take 255)).length)
      ∧ ((prefiltro_y_decodificador m co).1 = 0 ∨ (prefiltro_y_decodificador m co).1 = 1)
      ∧ ((prefiltro_y_decodificador m co).1 = 0 → (prefiltro_y_decodificador m co).2 = co) := by
  obtain ⟨p1, p2, p3⟩ := procesar_retorno_iff (cadena m) co
  rw [cadena_idem] at p1
  by_cases hs : strstr (cadena m) (bytes "$GPGGA") = true
  · simp only [prefiltro_y_decodificador, if_pos hs]
    refine ⟨?_, p2, p3⟩
    rw [← p1]
    constructor
    · intro h; exact ⟨hs, by rcases p2 with h0 | h1; exact absurd h0 h; exact h1⟩
    · intro h; rw [h.2]; decide
  · simp only [prefiltro_y_decodificador, if_neg hs]
    simp [hs]

theorem finalizar_un_byte (e : Estado) (hI : Inv e) (c : Nat)
    (hfin : c = 10 ∨ e.indice_buffer = 255) (co : Coordenadas) :
    ∃ o, leer_datos_gps e [c] co = some o
      ∧ o.retorno = (if (prefiltro_y_decodificador (contenido e) co).1 ≠ 0 then 1 else 0)
      ∧ o.coords = (prefiltro_y_decodificador (contenido e) co).2
      ∧ o.sentencias = [contenido e] ∧ o.estado.indice_buffer = 0 := by
  obtain ⟨o, ho, hoI, ho1, ho2, ho3, ho4⟩ := bucle_bytes_marcos [c] e co hI
  have hlen := contenido_length e hI
  have hfinM : c = 10 ∨ 255 ≤ (contenido e).length := by
    rcases hfin with h | h
    · exact Or.inl h
    · right; omega
  rw [bucle_marcos_fin_solo _ _ _ hfinM] at ho1 ho2 ho3 ho4
  exact ⟨o, by rw [leer_datos_gps_eq]; exact ho, ho1, ho3, ho4,
    indice_cero_de_contenido _ hoI ho2⟩


theorem length_filter_lt (b : List Nat) (n : Nat) (h : b.length < n) :
    (b.filter (fun c => c != 13)).length < n :=
  lt_of_le_of_lt (List.length_filter_le _ _) h


theorem bucle_marcos_sin_nl (d : List Nat) : ∀ (m : List Nat) (co : Coordenadas),
    10 ∉ d → m.length ≤ 255 →
    ((bucle_marcos m co d).sentencias = [] ∧ (bucle_marcos m co d).retorno = 0
        ∧ (bucle_marcos m co d).marco = m ++ d.filter (fun c => c != 13)
        ∧ (bucle_marcos m co d).coords = co
        ∧ (m ++ d.filter (fun c => c != 13)).length ≤ 255)
      ∨ ((bucle_marcos m co d).sentencias.head?
            = some ((m ++ d.filter (fun c => c != 13)).take 255)
          ∧ 255 ≤ (m ++ d.filter (fun c => c != 13)).length) := by
  induction d with
  | nil => intro m co _ hm; left; simp [bucle_marcos_nil, hm]
  | cons c r ih =>
    intro m co h10 hm
    have hc : c ≠ 10 := fun h => h10 (by simp [h])
    have hr : 10 ∉ r := fun h => h10 (by simp [h])
    by_cases hfull : 255 ≤ m.length
    · right
      have hm255 : m.length = 255 := by omega
      have htake : (m ++ (c :: r).filter (fun c => c != 13)).take 255 = m := by
        rw [List.take_append_of_le_length (by omega), List.take_of_length_le (by omega)]
      refine ⟨?_, by simp; omega⟩
      rw [htake]
      by_cases hp : (prefiltro_y_decodificador m co).1 = 0
      · rw [bucle_marcos_fin_nofix m co c r (Or.inr hfull) hp]; simp
      · rw [bucle_marcos_fin_fix m co c r (Or.inr hfull) hp]; simp
    · have hlt : m.length < 255 := by omega
      by_cases hcr : c = 13
      · subst hcr
        rw [bucle_marcos_cr m co r hlt]
        have hf : (13 :: r).filter (fun c => c != 13) = r.filter (fun c => c != 13) := by simp
        rw [hf]
        exact ih m co hr hm
      · rw [bucle_marcos_char m co c r hlt hc hcr]
        have hf : (c :: r).filter (fun c => c != 13) = c :: r.filter (fun c => c != 13) := by
          simp [List.filter_cons, hcr]
        rw [hf]
        have := ih (m ++ [c]) co hr (by simp; omega)
        simpa using this

theorem bucle_marcos_primer_marco (xs resto : List Nat) : ∀ (m : List Nat) (co : Coordenadas),
    10 ∉ xs → m.length ≤ 255 → 256 ≤ m.length + (xs.filter (fun c => c != 13)).length →
    (bucle_marcos m co (xs ++ resto)).sentencias.head?
      = some ((m ++ xs.filter (fun c => c != 13)).take 255) := by
  induction xs with
  | nil => intro m co _ hm h; simp at h; omega
  | cons c r ih =>
    intro m co h10 hm h
    have hc : c ≠ 10 := fun h => h10 (by simp [h])
    have hr : 10 ∉ r := fun h => h10 (by simp [h])
    rw [List.cons_append]
    by_cases hfull : 255 ≤ m.length
    · have htake : (m ++ (c :: r).filter (fun c => c != 13)).take 255 = m := by
        rw [List.take_append_of_le_length (by omega), List.take_of_length_le (by omega)]
      rw [htake]
      by_cases hp : (prefiltro_y_decodificador m co).1 = 0
      · rw [bucle_marcos_fin_nofix m co c _ (Or.inr hfull) hp]; simp
      · rw [bucle_marcos_fin_fix m co c _ (Or.inr hfull) hp]; simp
    · have hlt : m.length < 255 := by omega
      by_cases hcr : c = 13
      · subst hcr
        rw [bucle_marcos_cr m co _ hlt]
        have hf : (13 :: r).filter (fun c => c != 13) = r.filter (fun c => c != 13) := by simp
        rw [hf] at h ⊢
        exact ih m co hr hm h
      · rw [bucle_marcos_char m co c _ hlt hc hcr]
        have hf : (c :: r).filter (fun c => c != 13) = c :: r.filter (fun c => c != 13) := by
          simp [List.filter_cons, hcr]
        rw [hf] at h ⊢
        have := ih (m ++ [c]) co hr (by simp; omega) (by simp at h ⊢; omega)
        simpa using this

theorem head?_append_of_head? {α : Type} (l1 l2 : List α) (x : α) (h : l1.head? = some x) :
    (l1 ++ l2).head? = some x := by
  cases l1 with
  | nil => simp at h
  | cons a l => simpa using h

theorem alimentar_marcos_primer_marco (chunks : List (List Nat)) :
    ∀ (m : List Nat) (co : Coordenadas) (xs resto : List Nat),
    chunks.flatten = xs ++ resto → 10 ∉ xs → m.length ≤ 255 →
    256 ≤ m.length + (xs.filter (fun c => c != 13)).length →
    (alimentar_marcos m co chunks).sentencias.head?
      = some ((m ++ xs.filter (fun c => c != 13)).take 255) := by
  induction chunks with
  | nil =>
    intro m co xs resto h _ hm hlen
    simp only [List.flatten_nil] at h
    have hx : xs = [] := (List.append_eq_nil.mp h.symm).1
    subst hx; simp at hlen; omega
  | cons d mas ih =>
    intro m co xs resto h h10 hm hlen
    rw [List.flatten_cons] at h
    simp only [alimentar_marcos]
    rcases List.append_eq_append_iff.mp h with ⟨a, hxs, hmas⟩ | ⟨c, hd, _⟩
    · subst hxs
      have h10d : 10 ∉ d := fun hh => h10 (by simp [hh])
      have h10a : 10 ∉ a := fun hh => h10 (by simp [hh])
      rw [List.filter_append] at hlen ⊢
      rcases bucle_marcos_sin_nl d m co h10d hm with ⟨s1, _, s3, s4, s5⟩ | ⟨s1, s2⟩
      · rw [s1, s3, s4, List.nil_append]
        have := ih (m ++ d.filter (fun c => c != 13)) co a resto hmas h10a s5
          (by simp at hlen ⊢; omega)
        rw [this, List.append_assoc]
      · apply head?_append_of_head? _ _ _
        rw [s1, ← List.append_assoc, List.take_append_of_le_length s2]
    · subst hd
      apply head?_append_of_head? _ _ _
      exact bucle_marcos_primer_marco xs c m co h10 hm hlen

theorem bucle_marcos_prefijo_sin_fix (xs ys : List Nat) (m : List Nat) (co : Coordenadas)
    (h : (bucle_marcos m co (xs ++ ys)).retorno = 0) : (bucle_marcos m co xs).retorno = 0 := by
  by_contra hne
  rw [bucle_marcos_append_fix xs ys m co hne] at h
  exact hne h

theorem bucle_marcos_nl_marco (xs : List Nat) (m : List Nat) (co : Coordenadas)
    (h : (bucle_marcos m co (xs ++ [10])).retorno = 0) :
    (bucle_marcos m co (xs ++ [10])).marco = [] := by
  have hx := bucle_marcos_prefijo_sin_fix xs [10] m co h
  rw [bucle_marcos_append xs [10] m co hx, SalidaM.con_marco,
    bucle_marcos_fin_solo _ _ _ (Or.inl rfl)]

theorem bucle_marcos_cuerpo_nl (b : List Nat) (co : Coordenadas) (h10 : 10 ∉ b)
    (hl : b.length < 255) :
    (bucle_marcos [] co b).retorno = 0
      ∧ bucle_marcos [] co (b ++ [10]) =
        { retorno := if (prefiltro_y_decodificador (b.filter (fun c => c != 13)) co).1 ≠ 0
                     then 1 else 0,
          marco := [],
          coords := (prefiltro_y_decodificador (b.filter (fun c => c != 13)) co).2,
          sentencias := [b.filter (fun c => c != 13)] } := by
  have hf : ([] : List Nat).length + (b.filter (fun c => c != 13)).length < 255 := by
    simpa using length_filter_lt b 255 hl
  constructor
  · have := bucle_marcos_tramo b [] [] co h10 hf
    rw [List.append_nil] at this
    rw [this, bucle_marcos_nil]
  · rw [bucle_marcos_tramo b [10] [] co h10 hf, List.nil_append,
      bucle_marcos_fin_solo _ _ _ (Or.inl rfl)]


theorem bucle_marcos_sin_fix (d : List Nat) : ∀ (m : List Nat) (co : Coordenadas),
    (bucle_marcos m co d).retorno = 0 →
    (bucle_marcos m co d).coords = co
      ∧ ∀ f ∈ (bucle_marcos m co d).sentencias, (prefiltro_y_decodificador f co).1 = 0 := by
  induction d with
  | nil => intro m co _; simp [bucle_marcos_nil]
  | cons c r ih =>
    intro m co h
    by_cases hfin : c = 10 ∨ 255 ≤ m.length
    · by_cases hr : (prefiltro_y_decodificador m co).1 = 0
      · have hco := (prefiltro_retorno_iff m co).2.2 hr
        rw [bucle_marcos_fin_nofix m co c r hfin hr, hco] at h ⊢
        rw [SalidaM.con_retorno] at h
        obtain ⟨i1, i2⟩ := ih [] co h
        refine ⟨by rw [SalidaM.con_coords]; exact i1, ?_⟩
        intro f hf
        rw [SalidaM.con_sentencias] at hf
        simp only [List.singleton_append, List.mem_cons] at hf
        rcases hf with hf | hf
        · rw [hf]; exact hr
        · exact i2 f hf
      · rw [bucle_marcos_fin_fix m co c r hfin hr] at h
        simp at h
    · have hlen : m.length < 255 := by
        by_contra hh; exact hfin (Or.inr (by omega))
      have h10 : c ≠ 10 := fun hh => hfin (Or.inl hh)
      by_cases hcr : c = 13
      · subst hcr
        rw [bucle_marcos_cr m co r hlen] at h ⊢
        exact ih m co h
      · rw [bucle_marcos_char m co c r hlen h10 hcr] at h ⊢
        exact ih _ co h

theorem bucle_marcos_limpio (d : List Nat) : ∀ (m : List Nat) (co : Coordenadas),
    (∀ c ∈ m, c ≠ 13 ∧ c ≠ 10) →
    (∀ c ∈ (bucle_marcos m co d).marco, c ≠ 13 ∧ c ≠ 10)
      ∧ ∀ f ∈ (bucle_marcos m co d).sentencias, ∀ c ∈ f, c ≠ 13 ∧ c ≠ 10 := by
  induction d with
  | nil => intro m co hm; simp only [bucle_marcos_nil]; exact ⟨hm, by simp⟩
  | cons c r ih =>
    intro m co hm
    have hnil : ∀ c ∈ ([] : List Nat), c ≠ 13 ∧ c ≠ 10 := by simp
    by_cases hfin : c = 10 ∨ 255 ≤ m.length
    · by_cases hr : (prefiltro_y_decodificador m co).1 = 0
      · rw [bucle_marcos_fin_nofix m co c r hfin hr]
        obtain ⟨i1, i2⟩ := ih [] (prefiltro_y_decodificador m co).2 hnil
        refine ⟨by rw [SalidaM.con_marco]; exact i1, ?_⟩
        intro f hf
        rw [SalidaM.con_sentencias] at hf
        simp only [List.singleton_append, List.mem_cons] at hf
        rcases hf with hf | hf
        · rw [hf]; exact hm
        · exact i2 f hf
      · rw [bucle_marcos_fin_fix m co c r hfin hr]
        refine ⟨hnil, ?_⟩
        intro f hf
        simp only [List.mem_singleton] at hf
        rw [hf]; exact hm
    · have hlen : m.length < 255 := by
        by_contra hh; exact hfin (Or.inr (by omega))
      have h10 : c ≠ 10 := fun hh => hfin (Or.inl hh)
      by_cases hcr : c = 13
      · subst hcr
        rw [bucle_marcos_cr m co r hlen]
        exact ih m co hm
      · rw [bucle_marcos_char m co c r hlen h10 hcr]
        apply ih
        intro x hx
        simp only [List.mem_append, List.mem_singleton] at hx
        rcases hx with hx | hx
        · exact hm x hx
        · rw [hx]; exact ⟨hcr, h10⟩

theorem alimentar_marcos_limpio (chunks : List (List Nat)) : ∀ (m : List Nat) (co : Coordenadas),
    (∀ c ∈ m, c ≠ 13 ∧ c ≠ 10) →
    (∀ c ∈ (alimentar_marcos m co chunks).marco, c ≠ 13 ∧ c ≠ 10)
      ∧ ∀ f ∈ (alimentar_marcos m co chunks).sentencias, ∀ c ∈ f, c ≠ 13 ∧ c ≠ 10 := by
  induction chunks with
  | nil => intro m co hm; simp only [alimentar_marcos]; exact ⟨hm, by simp⟩
  | cons d mas ih =>
    intro m co hm
    obtain ⟨b1, b2⟩ := bucle_marcos_limpio d m co hm
    obtain ⟨i1, i2⟩ := ih (bucle_marcos m co d).marco (bucle_marcos m co d).coords b1
    simp only [alimentar_marcos]
    refine ⟨i1, ?_⟩
    intro f hf
    simp only [List.mem_append] at hf
    rcases hf with hf | hf
    · exact b2 f hf
    · exact i2 f hf

theorem cadena_subset (l : List Nat) : ∀ c ∈ cadena l, c ∈ l := by
  intro c hc
  exact (List.takeWhile_sublist _).subset hc

theorem indice_de_contenido (s s2 : Estado) (h : Inv s) (h2 : Inv s2)
    (hc : contenido s = contenido s2) : s.indice_buffer = s2.indice_buffer := by
  have l1 := contenido_length s h
  have l2 := contenido_length s2 h2
  rw [hc] at l1
  obtain ⟨_, a1, _⟩ := h
  obtain ⟨_, a2, _⟩ := h2
  omega


theorem bucle_bytes_append (d mas : List Nat) : ∀ (e : Estado) (co : Coordenadas) (o : Salida),
    bucle_bytes e co d = some o → o.retorno = 0 →
    bucle_bytes e co (d ++ mas)
      = (bucle_bytes o.estado o.coords mas).map (Salida.con o.sentencias) := by
  induction d with
  | nil =>
    intro e co o h _
    simp only [bucle_bytes, Option.some.injEq] at h
    subst h
    simp only [List.nil_append]
    cases bucle_bytes e co mas <;> simp [Salida.con]
  | cons c r ih =>
    intro e co o h hr
    rw [List.cons_append]
    rw [bucle_bytes] at h ⊢
    split at h
    · rename_i hfin
      rw [if_pos hfin]
      cases hw : escribir e.buffer_nmea e.indice_buffer 0 with
      | none => rw [hw] at h; simp at h
      | some buf =>
        rw [hw] at h
        simp only at h ⊢
        split at h
        · simp only [Option.some.injEq] at h
          subst h
          simp at hr
        · rename_i hnf
          rw [if_neg hnf]
          cases hb : bucle_bytes { buffer_nmea := buf, indice_buffer := 0 }
              (prefiltro_y_decodificador buf co).2 r with
          | none => rw [hb] at h; simp at h
          | some q =>
            rw [hb] at h
            simp only [Option.map_some', Option.some.injEq] at h
            subst h
            rw [ih _ _ q hb hr]
            cases bucle_bytes q.estado q.coords mas <;> simp [Salida.con]
    · rename_i hfin
      rw [if_neg hfin]
      split at h
      · rename_i hcr
        rw [if_pos hcr]
        exact ih _ _ o h hr
      · rename_i hcr
        rw [if_neg hcr]
        cases hw : escribir e.buffer_nmea e.indice_buffer c with
        | none => rw [hw] at h; simp at h
        | some buf =>
          rw [hw] at h
          simp only at h ⊢
          exact ih _ _ o h hr

theorem bucle_bytes_append_fix (d ys : List Nat) : ∀ (e : Estado) (co : Coordenadas) (o : Salida),
    bucle_bytes e co d = some o → o.retorno ≠ 0 →
    bucle_bytes e co (d ++ ys) = some o := by
  induction d with
  | nil =>
    intro e co o h hr
    simp only [bucle_bytes, Option.some.injEq] at h
    subst h
    simp at hr
  | cons c r ih =>
    intro e co o h hr
    rw [List.cons_append]
    rw [bucle_bytes] at h ⊢
    split at h
    · rename_i hfin
      rw [if_pos hfin]
      cases hw : escribir e.buffer_nmea e.indice_buffer 0 with
      | none => rw [hw] at h; simp at h
      | some buf =>
        rw [hw] at h
        simp only at h ⊢
        split at h
        · rename_i hf
          rw [if_pos hf]
          exact h
        · rename_i hnf
          rw [if_neg hnf]
          cases hb : bucle_bytes { buffer_nmea := buf, indice_buffer := 0 }
              (prefiltro_y_decodificador buf co).2 r with
          | none => rw [hb] at h; simp at h
          | some q =>
            rw [hb] at h
            simp only [Option.map_some', Option.some.injEq] at h
            subst h
            rw [ih _ _ q hb hr]
            simp
    · rename_i hfin
      rw [if_neg hfin]
      split at h
      · rename_i hcr
        rw [if_pos hcr]
        exact ih _ _ o h hr
      · rename_i hcr
        rw [if_neg hcr]
        cases hw : escribir e.buffer_nmea e.indice_buffer c with
        | none => rw [hw] at h; simp at h
        | some buf =>
          rw [hw] at h
          simp only at h ⊢
          exact ih _ _ o h hr

theorem bucle_marcos_fix_descomp (d : List Nat) : ∀ (m : List Nat) (co : Coordenadas),
    (bucle_marcos m co d).retorno ≠ 0 →
    ∃ pre c post, d = pre ++ c :: post ∧ (bucle_marcos m co pre).retorno = 0
      ∧ (c = 10 ∨ 255 ≤ (bucle_marcos m co pre).marco.length)
      ∧ (prefiltro_y_decodificador (bucle_marcos m co pre).marco co).1 ≠ 0
      ∧ bucle_marcos m co d =
        { retorno := 1, marco := [],
          coords := (prefiltro_y_decodificador (bucle_marcos m co pre).marco co).2,
          sentencias := (bucle_marcos m co pre).sentencias ++ [(bucle_marcos m co pre).marco] } := by
  induction d with
  | nil => intro m co h; simp [bucle_marcos_nil] at h
  | cons c r ih =>
    intro m co h
    by_cases hfin : c = 10 ∨ 255 ≤ m.length
    · by_cases hr : (prefiltro_y_decodificador m co).1 = 0
      · have hco := (prefiltro_retorno_iff m co).2.2 hr
        rw [bucle_marcos_fin_nofix m co c r hfin hr, hco, SalidaM.con_retorno] at h
        obtain ⟨pre, c2, post, hd, h0, hc, hp, hw⟩ := ih [] co h
        refine ⟨c :: pre, c2, post, by rw [hd]; rfl, ?_, ?_, ?_, ?_⟩
        · rw [bucle_marcos_fin_nofix m co c pre hfin hr, hco, SalidaM.con_retorno]; exact h0
        · rw [bucle_marcos_fin_nofix m co c pre hfin hr, hco, SalidaM.con_marco]; exact hc
        · rw [bucle_marcos_fin_nofix m co c pre hfin hr, hco, SalidaM.con_marco]; exact hp
        · rw [bucle_marcos_fin_nofix m co c r hfin hr, hco, hw,
            bucle_marcos_fin_nofix m co c pre hfin hr, hco]
          simp [SalidaM.con]
      · exact ⟨[], c, r, rfl, rfl, hfin, hr, by
          rw [bucle_marcos_fin_fix m co c r hfin hr]; simp [bucle_marcos_nil]⟩
    · have hlen : m.length < 255 := by
        by_contra hh; exact hfin (Or.inr (by omega))
      have h10 : c ≠ 10 := fun hh => hfin (Or.inl hh)
      by_cases hcr : c = 13
      · subst hcr
        rw [bucle_marcos_cr m co r hlen] at h
        obtain ⟨pre, c2, post, hd, h0, hc, hp, hw⟩ := ih m co h
        refine ⟨13 :: pre, c2, post, by rw [hd]; rfl, ?_, ?_, ?_, ?_⟩
        · rw [bucle_marcos_cr m co pre hlen]; exact h0
        · rw [bucle_marcos_cr m co pre hlen]; exact hc
        · rw [bucle_marcos_cr m co pre hlen]; exact hp
        · rw [bucle_marcos_cr m co r hlen, bucle_marcos_cr m co pre hlen]; exact hw
      · rw [bucle_marcos_char m co c r hlen h10 hcr] at h
        obtain ⟨pre, c2, post, hd, h0, hc, hp, hw⟩ := ih _ co h
        refine ⟨c :: pre, c2, post, by rw [hd]; rfl, ?_, ?_, ?_, ?_⟩
        · rw [bucle_marcos_char m co c pre hlen h10 hcr]; exact h0
        · rw [bucle_marcos_char m co c pre hlen h10 hcr]; exact hc
        · rw [bucle_marcos_char m co c pre hlen h10 hcr]; exact hp
        · rw [bucle_marcos_char m co c r hlen h10 hcr,
            bucle_marcos_char m co c pre hlen h10 hcr]; exact hw

theorem bucle_marcos_conserva (d : List Nat) : ∀ (m : List Nat) (co : Coordenadas),
    (bucle_marcos m co d).retorno = 0 →
    (∀ f ∈ (bucle_marcos m co d).sentencias, f.length < 255) →
    (bucle_marcos m co d).sentencias.flatten ++ (bucle_marcos m co d).marco
      = m ++ d.filter (fun c => c != 13 && c != 10) := by
  induction d with
  | nil => intro m co _ _; simp [bucle_marcos_nil]
  | cons c r ih =>
    intro m co h hs
    by_cases hfin : c = 10 ∨ 255 ≤ m.length
    · by_cases hr : (prefiltro_y_decodificador m co).1 = 0
      · rw [bucle_marcos_fin_nofix m co c r hfin hr] at h hs ⊢
        rw [SalidaM.con_retorno] at h
        rw [SalidaM.con_sentencias] at hs
        have hm : m.length < 255 := hs m (by simp)
        have hc : c = 10 := by
          rcases hfin with hc | hc
          · exact hc
          · omega
        have ih2 := ih [] _ h (fun f hf => hs f (by simp [hf]))
        rw [SalidaM.con_sentencias, SalidaM.con_marco, List.flatten_append, List.append_assoc,
          ih2, hc]
        simp
      · rw [bucle_marcos_fin_fix m co c r hfin hr] at h
        simp at h
    · have hlen : m.length < 255 := by
        by_contra hh; exact hfin (Or.inr (by omega))
      have h10 : c ≠ 10 := fun hh => hfin (Or.inl hh)
      by_cases hcr : c = 13
      · subst hcr
        rw [bucle_marcos_cr m co r hlen] at h hs ⊢
        rw [ih m co h hs]
        simp
      · rw [bucle_marcos_char m co c r hlen h10 hcr] at h hs ⊢
        rw [ih _ co h hs]
        simp [List.filter_cons, hcr, h10]

theorem bucle_marcos_conserva_ult (d : List Nat) (m : List Nat) (co : Coordenadas)
    (h : (bucle_marcos m co d.dropLast).retorno = 0)
    (hs : ∀ f ∈ (bucle_marcos m co d).sentencias, f.length < 255) :
    (bucle_marcos m co d).sentencias.flatten ++ (bucle_marcos m co d).marco
      = m ++ d.filter (fun c => c != 13 && c != 10) := by
  rcases List.eq_nil_or_concat d with hnil | ⟨xs, c, hd⟩
  · subst hnil; simp [bucle_marcos_nil]
  · rw [List.concat_eq_append] at hd
    subst hd
    rw [List.dropLast_concat] at h
    obtain ⟨s1, _⟩ := bucle_marcos_sin_fix xs m co h
    rw [bucle_marcos_append xs [c] m co h, s1] at hs ⊢
    rw [SalidaM.con_sentencias] at hs
    have hx := bucle_marcos_conserva xs m co h (fun f hf => hs f (by simp [hf]))
    rw [SalidaM.con_sentencias, SalidaM.con_marco, List.filter_append, ← List.append_assoc, ← hx]
    by_cases hfin : c = 10 ∨ 255 ≤ (bucle_marcos m co xs).marco.length
    · rw [bucle_marcos_fin_solo _ _ _ hfin] at hs ⊢
      have hm : (bucle_marcos m co xs).marco.length < 255 := hs _ (by simp)
      have hc : c = 10 := by
        rcases hfin with hc | hc
        · exact hc
        · omega
      simp [hc]
    · have hlen : (bucle_marcos m co xs).marco.length < 255 := by
        by_contra hh; exact hfin (Or.inr (by omega))
      have h10 : c ≠ 10 := fun hh => hfin (Or.inl hh)
      by_cases hcr : c = 13
      · subst hcr
        rw [bucle_marcos_cr _ co [] hlen, bucle_marcos_nil]
        simp
      · rw [bucle_marcos_char _ co c [] hlen h10 hcr, bucle_marcos_nil]
        simp [List.filter_cons, hcr, h10]

theorem alimentar_marcos_conserva_ult (chunks : List (List Nat)) :
    ∀ (m : List Nat) (co : Coordenadas),
    (∀ i, i < chunks.length →
      (bucle_marcos (alimentar_marcos m co (chunks.take i)).marco
        (alimentar_marcos m co (chunks.take i)).coords (chunks.getD i []).dropLast).retorno = 0) →
    (∀ f ∈ (alimentar_marcos m co chunks).sentencias, f.length < 255) →
    (alimentar_marcos m co chunks).sentencias.flatten ++ (alimentar_marcos m co chunks).marco
      = m ++ chunks.flatten.filter (fun c => c != 13 && c != 10) := by
  induction chunks with
  | nil => intro m co _ _; simp [alimentar_marcos]
  | cons d mas ih =>
    intro m co hr hs
    have h0 : (bucle_marcos m co d.dropLast).retorno = 0 := by
      have := hr 0 (by simp)
      simpa [alimentar_marcos] using this
    simp only [alimentar_marcos] at hs ⊢
    have b := bucle_marcos_conserva_ult d m co h0 (fun f hf => hs f (by simp [hf]))
    have i := ih (bucle_marcos m co d).marco (bucle_marcos m co d).coords
      (fun i hi => by
        have := hr (i + 1) (by simp; omega)
        simpa [alimentar_marcos] using this)
      (fun f hf => hs f (by simp [hf]))
    rw [List.flatten_append, List.append_assoc, i, ← List.append_assoc, b, List.flatten_cons,
      List.filter_append, List.append_assoc]

theorem campos_eq (p : List Nat) :
    campos p = p.takeWhile (fun c => c != 44) ::
      (match p.dropWhile (fun c => c != 44) with
       | [] => []
       | _ :: resto => campos resto) := by
  induction p with
  | nil => simp [campos]
  | cons c r ih =>
    by_cases hc : c = 44
    · subst hc
      simp [campos]
    · have hb : (c != 44) = true := by simpa using hc
      rw [campos, if_neg hc, ih, List.takeWhile_cons, if_pos hb, List.dropWhile_cons, if_pos hb]

theorem tramos_nil : tramos [] = [] := by
  simp [tramos, campos]

theorem tramos_coma (r : List Nat) : tramos (44 :: r) = tramos r := by
  simp [tramos, campos]

theorem tramos_dropWhile (p : List Nat) :
    tramos (p.dropWhile (fun c => c == 44)) = tramos p := by
  induction p with
  | nil => simp
  | cons c r ih =>
    by_cases hc : c = 44
    · subst hc
      rw [List.dropWhile_cons, if_pos (by simp), ih, tramos_coma]
    · rw [List.dropWhile_cons, if_neg (by simpa using hc)]

theorem tramos_cons (c : Nat) (r : List Nat) (hc : c ≠ 44) :
    tramos (c :: r) = (c :: r).takeWhile (fun c => c != 44) ::
      tramos (((c :: r).dropWhile (fun c => c != 44)).drop 1) := by
  have hb : (c != 44) = true := by simpa using hc
  rw [tramos, campos_eq (c :: r)]
  have htw : (c :: r).takeWhile (fun c => c != 44) = c :: r.takeWhile (fun c => c != 44) := by
    rw [List.takeWhile_cons, if_pos hb]
  rw [htw, List.filter_cons_of_pos (by simp)]
  congr 1
  cases hdw : (c :: r).dropWhile (fun c => c != 44) with
  | nil => simp [tramos, campos]
  | cons x resto => simp [tramos]

theorem bucle_tokens_tramos (n : Nat) : ∀ (p : List Nat),
    bucle_tokens n p = (tramos p).take n := by
  induction n with
  | zero => intro p; simp [bucle_tokens]
  | succ n ih =>
    intro p
    rw [bucle_tokens, strtok, ← tramos_dropWhile p]
    cases hq : p.dropWhile (fun c => c == 44) with
    | nil => simp [tramos_nil]
    | cons c r =>
      have hc : c ≠ 44 := by
        have hh := List.head_dropWhile_not (fun c => c == 44) p
        rw [hq] at hh
        simpa using hh
      simp only
      rw [ih, tramos_cons c r hc, List.take_succ_cons]

theorem bucle_tokens_length (n : Nat) (p : List Nat) : (bucle_tokens n p).length ≤ n := by
  rw [bucle_tokens_tramos]
  simp

theorem filter_take_de_prefijo (q : List Nat → Bool) : ∀ (k : Nat) (l : List (List Nat)),
    k ≤ l.length → (∀ j, j < k → q (l.getD j []) = true) →
    (l.filter q).take k = l.take k := by
  intro k
  induction k with
  | zero => intro l _ _; simp
  | succ k ih =>
    intro l hl hq
    cases l with
    | nil => simp at hl
    | cons a t =>
      have ha : q a = true := by
        have := hq 0 (by omega)
        simpa using this
      rw [List.filter_cons_of_pos ha, List.take_succ_cons, List.take_succ_cons,
        ih t (by simpa using hl) (fun j hj => by
          have := hq (j + 1) (by omega)
          simpa using this)]

theorem cadena_de_sin_nul (s : List Nat) (h : 0 ∉ s) : cadena s = s := by
  rw [cadena, List.takeWhile_eq_self_iff]
  intro c hc
  have : c ≠ 0 := fun h0 => h (h0 ▸ hc)
  simpa using this

theorem copia_de_sentencia (s : List Nat) (hlen : s.length ≤ 255) (h : 0 ∉ s) :
    (cadena s).take 255 = s := by
  rw [cadena_de_sin_nul s h, List.take_of_length_le hlen]


theorem tokens_de_campos (s : List Nat) (h10 : 10 ≤ (campos s).length)
    (hne : ∀ i, i < 10 → (campos s).getD i [] ≠ []) :
    10 ≤ (bucle_tokens 20 s).length
      ∧ ∀ i, i < 10 → (bucle_tokens 20 s).getD i [] = (campos s).getD i [] := by
  have ht : (bucle_tokens 20 s).take 10 = (campos s).take 10 := by
    rw [bucle_tokens_tramos, List.take_take, tramos]
    exact filter_take_de_prefijo _ 10 (campos s) h10 (fun j hj => by
      have := hne j hj
      cases hg : (campos s).getD j [] with
      | nil => exact absurd hg this
      | cons a l => simp)
  have hl : 10 ≤ (bucle_tokens 20 s).length := by
    have := congrArg List.length ht
    simp only [List.length_take] at this
    omega
  refine ⟨hl, ?_⟩
  intro i hi
  have e1 : (bucle_tokens 20 s).getD i [] = ((bucle_tokens 20 s).take 10).getD i [] := by
    rw [List.getD_eq_getElem _ _ (by omega), List.getD_eq_getElem _ _ (by simp; omega),
      List.getElem_take]
  have e2 : (campos s).getD i [] = ((campos s).take 10).getD i [] := by
    rw [List.getD_eq_getElem _ _ (by omega), List.getD_eq_getElem _ _ (by simp; omega),
      List.getElem_take]
  rw [e1, e2, ht]

theorem contador_tras_append (pre : List Int) (r : Int) :
    contador_tras (pre ++ [r]) = (ciclo (contador_tras pre) r).1 := by
  simp [contador_tras, List.foldl_append]

theorem sin_fix_seguidos_append (pre : List Int) (r : Int) :
    sin_fix_seguidos (pre ++ [r]) = if r = 0 then sin_fix_seguidos pre + 1 else 0 := by
  simp only [sin_fix_seguidos, List.reverse_append, List.reverse_cons, List.reverse_nil,
    List.nil_append, List.singleton_append, List.takeWhile_cons]
  by_cases h : r = 0
  · simp [h]
  · simp [h]

theorem contador_tras_eq (rs : List Int) : contador_tras rs = (sin_fix_seguidos rs : Int) := by
  induction rs using List.reverseRecOn with
  | nil => simp [contador_tras, sin_fix_seguidos]
  | append_singleton pre r ih =>
    rw [contador_tras_append, sin_fix_seguidos_append, ciclo]
    by_cases h : r = 0
    · simp [h, ih]
    · simp [h]

/-! ## Binary floating point: rounding bounds and the converter -/

theorem redondear_par_error (y : ℚ) : |(redondear_par y : ℚ) - y| ≤ 1 / 2 := by
  have h1 : (⌊y⌋ : ℚ) ≤ y := Int.floor_le y
  have h2 : y < (⌊y⌋ : ℚ) + 1 := Int.lt_floor_add_one y
  unfold redondear_par
  split_ifs with ha hb hc
  · rw [abs_le]; constructor <;> linarith
  · rw [abs_le]; push_cast; constructor <;> linarith
  · rw [abs_le]; constructor <;> linarith
  · rw [abs_le]; push_cast; constructor <;> linarith

theorem redondear_par_nonneg (y : ℚ) (h : 0 ≤ y) : 0 ≤ redondear_par y := by
  have h0 : 0 ≤ ⌊y⌋ := Int.floor_nonneg.mpr h
  unfold redondear_par
  split_ifs <;> omega

theorem log2_pasos_le (pasos n : Nat) (h : 1 ≤ n) : 2 ^ log2_pasos pasos n ≤ n := by
  induction pasos generalizing n with
  | zero => simpa [log2_pasos] using h
  | succ k ih =>
    rw [log2_pasos]
    split_ifs with h2
    · simpa using h
    · have h3 : 1 ≤ n / 2 := by omega
      have := ih (n / 2) h3
      rw [pow_succ]
      omega

theorem log2_pasos_lt (pasos n : Nat) (h : n < 2 ^ pasos) :
    n < 2 ^ (log2_pasos pasos n + 1) := by
  induction pasos generalizing n with
  | zero => simp at h; simp [log2_pasos, h]
  | succ k ih =>
    rw [log2_pasos]
    split_ifs with h2
    · simpa using h2
    · have h3 : n / 2 < 2 ^ k := by
        rw [pow_succ] at h
        omega
      have := ih (n / 2) h3
      rw [pow_succ]
      omega

theorem dos_pow_exponente2_le (x : ℚ) : (2 : ℚ) ^ exponente2 x ≤ max |x| 1 := by
  unfold exponente2
  split_ifs with h
  · have hn : 1 ≤ ⌊|x|⌋.toNat := by
      have : (1 : Int) ≤ ⌊|x|⌋ := Int.le_floor.mpr (by simpa using h)
      omega
    have h1 := log2_pasos_le ⌊|x|⌋.toNat ⌊|x|⌋.toNat hn
    have h2 : ((2 ^ log2_pasos ⌊|x|⌋.toNat ⌊|x|⌋.toNat : Nat) : ℚ) ≤ (⌊|x|⌋.toNat : ℚ) := by
      exact_mod_cast h1
    have h3 : ((⌊|x|⌋.toNat : Nat) : ℚ) = ((⌊|x|⌋ : Int) : ℚ) := by
      have : ((⌊|x|⌋.toNat : Nat) : Int) = ⌊|x|⌋ := Int.toNat_of_nonneg (by omega)
      exact_mod_cast this
    have h4 : ((⌊|x|⌋ : Int) : ℚ) ≤ |x| := Int.floor_le _
    rw [zpow_natCast]
    push_cast at h2
    exact le_trans (le_trans h2 (by rw [h3]; exact h4)) (le_max_left _ _)
  · rw [zpow_neg, zpow_natCast]
    refine le_trans ?_ (le_max_right _ _)
    apply inv_le_one_of_one_le₀
    exact one_le_pow₀ (by norm_num)

theorem redondear_binario_error (p : Nat) (qmin : Int) (hp : 1 ≤ p) (hq : qmin ≤ 0) (x : ℚ) :
    |redondear_binario p qmin x - x| ≤ max |x| 1 / 2 := by
  unfold redondear_binario
  split_ifs with h0
  · subst h0; simp
  · have hQ : (0 : ℚ) < (2 : ℚ) ^ max (exponente2 x - ((p : Int) - 1)) qmin :=
      zpow_pos (by norm_num) _
    have hle : (2 : ℚ) ^ max (exponente2 x - ((p : Int) - 1)) qmin ≤ max |x| 1 := by
      rcases le_total (exponente2 x - ((p : Int) - 1)) qmin with hm | hm
      · rw [max_eq_right hm]
        refine le_trans ?_ (le_max_right _ _)
        exact zpow_le_one_of_nonpos₀ (by norm_num) hq
      · rw [max_eq_left hm]
        refine le_trans ?_ (dos_pow_exponente2_le x)
        apply zpow_le_zpow_right₀ (by norm_num)
        have : (1 : Int) ≤ (p : Int) := by exact_mod_cast hp
        omega
    have he := redondear_par_error (x / (2 : ℚ) ^ max (exponente2 x - ((p : Int) - 1)) qmin)
    set Q := (2 : ℚ) ^ max (exponente2 x - ((p : Int) - 1)) qmin with hQdef
    have hx : x = x / Q * Q := by field_simp
    have : (redondear_par (x / Q) : ℚ) * Q - x = ((redondear_par (x / Q) : ℚ) - x / Q) * Q := by
      rw [sub_mul, ← hx]
    rw [this, abs_mul, abs_of_pos hQ]
    calc |(redondear_par (x / Q) : ℚ) - x / Q| * Q ≤ 1 / 2 * Q :=
          mul_le_mul_of_nonneg_right he hQ.le
      _ ≤ max |x| 1 / 2 := by linarith

theorem redondear_binario_nonneg (p : Nat) (qmin : Int) (x : ℚ) (h : 0 ≤ x) :
    0 ≤ redondear_binario p qmin x := by
  unfold redondear_binario
  split_ifs with h0
  · exact le_refl _
  · have hQ : (0 : ℚ) < (2 : ℚ) ^ max (exponente2 x - ((p : Int) - 1)) qmin :=
      zpow_pos (by norm_num) _
    have := redondear_par_nonneg _ (div_nonneg h hQ.le)
    exact mul_nonneg (by exact_mod_cast this) hQ.le

theorem redondear32_abs_le (x : ℚ) : |redondear32 x| ≤ 2 * |x| + 1 := by
  have h := redondear_binario_error 24 (-149) (by norm_num) (by norm_num) x
  have h1 : max |x| 1 ≤ |x| + 1 := max_le (by linarith [abs_nonneg x]) (by linarith [abs_nonneg x])
  have h2 : |redondear32 x| ≤ |redondear32 x - x| + |x| := by
    have := abs_add (redondear32 x - x) x
    simpa using this
  unfold redondear32 at *
  linarith [abs_nonneg x]

theorem abs_le_redondear32 (x : ℚ) : |x| ≤ 2 * |redondear32 x| + 1 := by
  have h := redondear_binario_error 24 (-149) (by norm_num) (by norm_num) x
  have h2 : |x| ≤ |redondear32 x - x| + |redondear32 x| := by
    have := abs_sub (redondear32 x) (redondear32 x - x)
    have h3 := abs_add (x - redondear32 x) (redondear32 x)
    rw [abs_sub_comm] at h3
    simpa using h3
  unfold redondear32 at *
  rcases le_total |x| 1 with h1 | h1
  · rw [max_eq_right h1] at h
    linarith [abs_nonneg (redondear_binario 24 (-149) x)]
  · rw [max_eq_left h1] at h
    linarith

theorem a_binary32_de_cota (x : ℚ) (h : |x| ≤ 2 ^ (100 : Nat)) :
    a_binary32 x = some (redondear32 x) := by
  unfold a_binary32
  rw [if_pos]
  have := redondear32_abs_le x
  have h2 : (2 : ℚ) * 2 ^ (100 : Nat) + 1 < 2 ^ (128 : Nat) := by norm_num
  linarith

theorem abs_lt_truncar (q : ℚ) : |q| < |(truncar q : ℚ)| + 1 := by
  unfold truncar
  split_ifs with h
  · have h1 : (0 : ℚ) ≤ (⌊q⌋ : ℚ) := by exact_mod_cast Int.floor_nonneg.mpr h
    rw [abs_of_nonneg h, abs_of_nonneg h1]
    exact Int.lt_floor_add_one q
  · have hq : q < 0 := lt_of_not_le h
    have h1 : (⌈q⌉ : ℚ) ≤ 0 := by exact_mod_cast Int.ceil_le.mpr (by simpa using hq.le)
    rw [abs_of_neg hq, abs_of_nonpos h1]
    have := Int.ceil_lt_add_one q
    linarith

theorem a_int_cota (q : ℚ) (g : Int) (h : a_int q = some g) :
    g = truncar q ∧ |(g : ℚ)| ≤ 2147483648 ∧ |q| ≤ 2147483649 := by
  unfold a_int at h
  split_ifs at h with hr
  simp only [Option.some.injEq] at h
  subst h
  have h1 : |((truncar q : Int) : ℚ)| ≤ 2147483648 := by
    rw [abs_le]
    constructor
    · exact_mod_cast hr.1
    · have : truncar q ≤ 2147483648 := by omega
      exact_mod_cast this
  refine ⟨rfl, h1, ?_⟩
  have := abs_lt_truncar q
  linarith

theorem convertir_binary32_de_entero (raw : List Nat) (d : Nat) (v : ℚ) (g : Int)
    (hv : atof_binary32 raw = some v) (hg : a_int (redondear32 (v / 100)) = some g) :
    convertir_grados_minutos_a_decimal_binary32 raw d
      = some (if d = 83 ∨ d = 87 then
                -redondear32 (redondear32 (g : ℚ)
                  + redondear32 (redondear32 (v - redondear32 (redondear32 (g : ℚ) * 100)) / 60))
              else
                redondear32 (redondear32 (g : ℚ)
                  + redondear32 (redondear32 (v - redondear32 (redondear32 (g : ℚ) * 100)) / 60)))
    := by
  obtain ⟨-, hgabs, hqabs⟩ := a_int_cota _ _ hg
  have hv100 : |v / 100| ≤ 4294967299 := by
    have := abs_le_redondear32 (v / 100)
    linarith
  have hvabs : |v| ≤ 429496729900 := by
    rw [abs_div, abs_of_pos (by norm_num : (0 : ℚ) < 100)] at hv100
    rw [div_le_iff₀ (by norm_num)] at hv100
    linarith
  have hgf : |redondear32 (g : ℚ)| ≤ 4294967297 := by
    have := redondear32_abs_le (g : ℚ)
    linarith
  have hpr0 : |redondear32 (g : ℚ) * 100| ≤ 429496729700 := by
    rw [abs_mul, abs_of_pos (by norm_num : (0 : ℚ) < 100)]
    linarith
  have hpr : |redondear32 (redondear32 (g : ℚ) * 100)| ≤ 858993459401 := by
    have := redondear32_abs_le (redondear32 (g : ℚ) * 100)
    linarith
  have hmi0 : |v - redondear32 (redondear32 (g : ℚ) * 100)| ≤ 1288490189301 := by
    have := abs_sub v (redondear32 (redondear32 (g : ℚ) * 100))
    linarith
  have hmi : |redondear32 (v - redondear32 (redondear32 (g : ℚ) * 100))| ≤ 2576980378603 := by
    have := redondear32_abs_le (v - redondear32 (redondear32 (g : ℚ) * 100))
    linarith
  have hms0 : |redondear32 (v - redondear32 (redondear32 (g : ℚ) * 100)) / 60|
      ≤ 2576980378603 := by
    rw [abs_div, abs_of_pos (by norm_num : (0 : ℚ) < 60)]
    rw [div_le_iff₀ (by norm_num)]
    linarith [abs_nonneg (redondear32 (v - redondear32 (redondear32 (g : ℚ) * 100)))]
  have hms : |redondear32 (redondear32 (v - redondear32 (redondear32 (g : ℚ) * 100)) / 60)|
      ≤ 5153960757207 := by
    have := redondear32_abs_le (redondear32 (v - redondear32 (redondear32 (g : ℚ) * 100)) / 60)
    linarith
  have hsu0 : |redondear32 (g : ℚ)
      + redondear32 (redondear32 (v - redondear32 (redondear32 (g : ℚ) * 100)) / 60)|
      ≤ 5158255724504 := by
    have := abs_add (redondear32 (g : ℚ))
      (redondear32 (redondear32 (v - redondear32 (redondear32 (g : ℚ) * 100)) / 60))
    linarith
  have hB : (5158255724504 : ℚ) ≤ 2 ^ (100 : Nat) := by norm_num
  unfold convertir_grados_minutos_a_decimal_binary32
  rw [hv, Option.some_bind, a_binary32_de_cota _ (by linarith), Option.some_bind, hg,
    Option.some_bind, a_binary32_de_cota _ (by linarith), Option.some_bind,
    a_binary32_de_cota _ (by linarith), Option.some_bind,
    a_binary32_de_cota _ (by linarith), Option.some_bind,
    a_binary32_de_cota _ (by linarith), Option.some_bind,
    a_binary32_de_cota _ (by linarith), Option.some_bind]

theorem a_binary64_cero : a_binary64 0 = some 0 := by
  simp [a_binary64, redondear_binario]

theorem a_binary32_cero : a_binary32 0 = some 0 := by
  simp [a_binary32, redondear32, redondear_binario]

theorem atof_sin_conversion (t : List Nat) (h : sin_conversion t = true) : atof t = 0 := by
  unfold sin_conversion at h
  unfold atof
  cases hs : (leer_signo (t.dropWhile isspace)) with
  | mk neg s2 =>
    rw [hs] at h
    cases s2 with
    | nil => simp [leer_digitos]
    | cons c r =>
      dsimp only at h ⊢
      simp only [Bool.and_eq_true, Bool.not_eq_true', Bool.and_eq_false_imp, beq_iff_eq] at h
      obtain ⟨⟨hd, h46⟩, _⟩ := h
      have hl : leer_digitos (c :: r) 0 0 = (0, 0, c :: r) := by
        rw [leer_digitos]; simp [hd]
      rw [hl]
      dsimp only
      split
      · rfl
      · rename_i hn
        exfalso
        apply hn
        split
        · rename_i r2 heq
          simp only [List.cons.injEq] at heq
          obtain ⟨hc, hr⟩ := heq
          subst hr
          have h2 := h46 hc
          cases r with
          | nil => simp [leer_digitos]
          | cons d r3 =>
            simp only at h2
            rw [leer_digitos]
            simp [h2]
        · rfl

theorem atof_binary64_sin_conversion (t : List Nat) (h : sin_conversion t = true) :
    atof_binary64 t = some 0 := by
  have h0 := atof_sin_conversion t h
  unfold sin_conversion at h
  unfold atof_binary64
  cases hs : (leer_signo (t.dropWhile isspace)) with
  | mk neg s2 =>
    rw [hs] at h
    cases s2 with
    | nil =>
      have h1 : es_inf_o_nan [] = false := by decide
      have h2 : es_hexadecimal [] = false := rfl
      simp only [h1, h2, h0, Bool.false_eq_true, if_false]
      exact a_binary64_cero
    | cons c r =>
      dsimp only at h ⊢
      simp only [Bool.and_eq_true, Bool.not_eq_true', Bool.and_eq_false_imp, beq_iff_eq] at h
      obtain ⟨⟨hd, -⟩, hin⟩ := h
      have h2 : es_hexadecimal (c :: r) = false := by
        unfold es_hexadecimal
        split
        · rename_i heq
          simp only [List.cons.injEq] at heq
          rw [heq.1] at hd
          exact absurd hd (by decide)
        · rfl
      simp only [hin, h2, h0, Bool.false_eq_true, if_false]
      exact a_binary64_cero

theorem atof_binary32_sin_conversion (t : List Nat) (h : sin_conversion t = true) :
    atof_binary32 t = some 0 := by
  unfold atof_binary32
  rw [atof_binary64_sin_conversion t h, Option.some_bind]
  exact a_binary32_cero

theorem redondear32_cero : redondear32 0 = 0 := by
  simp [redondear32, redondear_binario]

theorem convertir_binary32_sin_conversion (t : List Nat) (d : Nat)
    (h : sin_conversion t = true) :
    convertir_grados_minutos_a_decimal_binary32 t d = some 0 := by
  have hg : a_int (redondear32 ((0 : ℚ) / 100)) = some 0 := by
    rw [zero_div, redondear32_cero]; decide!
  rw [convertir_binary32_de_entero t d 0 0 (atof_binary32_sin_conversion t h) hg]
  simp [redondear32_cero]

theorem convertir_binary32_definido (raw : List Nat) (d : Nat) :
    (∃ r, convertir_grados_minutos_a_decimal_binary32 raw d = some r)
      ↔ ∃ v g, atof_binary32 raw = some v ∧ a_int (redondear32 (v / 100)) = some g := by
  constructor
  · rintro ⟨r, hr⟩
    unfold convertir_grados_minutos_a_decimal_binary32 at hr
    cases hv : atof_binary32 raw with
    | none => rw [hv] at hr; simp at hr
    | some v =>
      rw [hv, Option.some_bind] at hr
      have hq : a_binary32 (v / 100) = some (redondear32 (v / 100)) := by
        unfold a_binary32
        split_ifs with hc
        · rfl
        · unfold a_binary32 at hr
          rw [if_neg hc] at hr
          simp at hr
      rw [hq, Option.some_bind] at hr
      cases hg : a_int (redondear32 (v / 100)) with
      | none => rw [hg] at hr; simp at hr
      | some g => exact ⟨v, g, rfl, hg⟩
  · rintro ⟨v, g, hv, hg⟩
    exact ⟨_, convertir_binary32_de_entero raw d v g hv hg⟩

theorem exponente2_spec (x : ℚ) (hx : x ≠ 0) :
    (2 : ℚ) ^ exponente2 x ≤ |x| ∧ |x| < (2 : ℚ) ^ (exponente2 x + 1) := by
  have hpos : 0 < |x| := abs_pos.mpr hx
  unfold exponente2
  split_ifs with h
  · have hfl : (1 : Int) ≤ ⌊|x|⌋ := Int.le_floor.mpr (by simpa using h)
    have hn : 1 ≤ ⌊|x|⌋.toNat := by omega
    have h1 := log2_pasos_le ⌊|x|⌋.toNat ⌊|x|⌋.toNat hn
    have h1b := log2_pasos_lt ⌊|x|⌋.toNat ⌊|x|⌋.toNat (Nat.lt_two_pow _)
    have h3 : ((⌊|x|⌋.toNat : Nat) : ℚ) = ((⌊|x|⌋ : Int) : ℚ) := by
      have : ((⌊|x|⌋.toNat : Nat) : Int) = ⌊|x|⌋ := Int.toNat_of_nonneg (by omega)
      exact_mod_cast this
    have h4 : ((⌊|x|⌋ : Int) : ℚ) ≤ |x| := Int.floor_le _
    have h5 : |x| < ((⌊|x|⌋ : Int) : ℚ) + 1 := Int.lt_floor_add_one _
    have h2 : ((2 ^ log2_pasos ⌊|x|⌋.toNat ⌊|x|⌋.toNat : Nat) : ℚ) ≤ (⌊|x|⌋.toNat : ℚ) := by
      exact_mod_cast h1
    have h2b : ((⌊|x|⌋.toNat : Nat) : ℚ) + 1
        ≤ ((2 ^ (log2_pasos ⌊|x|⌋.toNat ⌊|x|⌋.toNat + 1) : Nat) : ℚ) := by
      exact_mod_cast h1b
    push_cast at h2 h2b
    constructor
    · rw [zpow_natCast]; linarith
    · have : ((log2_pasos ⌊|x|⌋.toNat ⌊|x|⌋.toNat : Nat) : Int) + 1
          = ((log2_pasos ⌊|x|⌋.toNat ⌊|x|⌋.toNat + 1 : Nat) : Int) := by push_cast; rfl
      rw [this, zpow_natCast]; linarith
  · have hlt : |x| < 1 := lt_of_not_le h
    have hinv : 1 < 1 / |x| := by
      rw [lt_div_iff₀ hpos]; linarith
    have hc1 : 1 / |x| ≤ ((⌈1 / |x|⌉ : Int) : ℚ) := Int.le_ceil _
    have hc2 : ((⌈1 / |x|⌉ : Int) : ℚ) < 1 / |x| + 1 := Int.ceil_lt_add_one _
    have hc0 : (2 : Int) ≤ ⌈1 / |x|⌉ := by
      have : ((1 : Int) : ℚ) < ((⌈1 / |x|⌉ : Int) : ℚ) := by push_cast; linarith
      have : (1 : Int) < ⌈1 / |x|⌉ := by exact_mod_cast this
      omega
    set m := ⌈1 / |x|⌉.toNat with hm
    have hm2 : 2 ≤ m := by omega
    have hmq : (m : ℚ) = ((⌈1 / |x|⌉ : Int) : ℚ) := by
      have : ((m : Nat) : Int) = ⌈1 / |x|⌉ := Int.toNat_of_nonneg (by omega)
      exact_mod_cast this
    have h1 := log2_pasos_le (m - 1) (m - 1) (by omega)
    have h1b := log2_pasos_lt (m - 1) (m - 1) (Nat.lt_two_pow _)
    have h2 : ((2 ^ log2_pasos (m - 1) (m - 1) : Nat) : ℚ) + 1 ≤ (m : ℚ) := by
      have : 2 ^ log2_pasos (m - 1) (m - 1) + 1 ≤ m := by omega
      exact_mod_cast this
    have h2b : (m : ℚ) ≤ ((2 ^ (log2_pasos (m - 1) (m - 1) + 1) : Nat) : ℚ) := by
      have : m ≤ 2 ^ (log2_pasos (m - 1) (m - 1) + 1) := by omega
      exact_mod_cast this
    push_cast at h2 h2b
    have hP : (0 : ℚ) < 2 ^ (log2_pasos (m - 1) (m - 1) + 1) := by positivity
    have hP0 : (0 : ℚ) < 2 ^ log2_pasos (m - 1) (m - 1) := by positivity
    constructor
    · rw [zpow_neg, zpow_natCast]
      rw [inv_le_comm₀ hP hpos, ← one_div]
      linarith
    · have : -((log2_pasos (m - 1) (m - 1) + 1 : Nat) : Int) + 1
          = -((log2_pasos (m - 1) (m - 1) : Nat) : Int) := by push_cast; ring
      rw [this, zpow_neg, zpow_natCast]
      rw [lt_inv_comm₀ hpos hP0, ← one_div]
      linarith

/-! ## The claims -/

/-- C1: from the initial state, after any sequence of calls on arbitrary chunks every store
into `buffer_nmea` was inside its 256 cells (the run is defined) and the index lies between 0
and 255; as the chunks are arbitrary this covers the point after every byte processed. -/
theorem C1_indice_en_rango (chunks : List (List Nat)) (co : Coordenadas) :
    ∃ a, alimentar estado_inicial co chunks = some a
      ∧ 0 ≤ a.estado.indice_buffer ∧ a.estado.indice_buffer ≤ 255
      ∧ a.estado.buffer_nmea.length = 256 := by
  obtain ⟨a, ha, ⟨h1, h2, h3⟩, _⟩ :=
    alimentar_marcos_spec chunks estado_inicial co inv_estado_inicial
  exact ⟨a, ha, h2, h3, h1⟩

/-- C2: chunk-boundary independence. For a body `s` of fewer than 255 bytes without newline
or NUL, every cutting of `s ++ "\r\n"` into chunks, fed from an empty buffer, finalises the
single frame `s` without its carriage returns, as the uncut feed does, with the same
coordinates and fix outcome (those of the prefilter and decoder on that frame), and leaves the
buffer empty. -/
theorem C2_independencia_de_cortes (s : List Nat) (hlen : s.length < 255) (hnl : 10 ∉ s)
    (_hnul : 0 ∉ s) (e : Estado) (hbuf : e.buffer_nmea.length = 256)
    (hidx : e.indice_buffer = 0) (co : Coordenadas) (chunks : List (List Nat))
    (hch : chunks.flatten = s ++ [13, 10]) :
    ∃ a o, alimentar e co chunks = some a ∧ leer_datos_gps e (s ++ [13, 10]) co = some o
      ∧ a.sentencias = [s.filter (fun c => c != 13)]
      ∧ o.sentencias = [s.filter (fun c => c != 13)]
      ∧ a.coords = o.coords
      ∧ o.coords = (prefiltro_y_decodificador (s.filter (fun c => c != 13)) co).2
      ∧ (1 ∈ a.retornos ↔ o.retorno = 1)
      ∧ (o.retorno = 1 ↔ (prefiltro_y_decodificador (s.filter (fun c => c != 13)) co).1 ≠ 0)
      ∧ a.estado.indice_buffer = 0 ∧ o.estado.indice_buffer = 0 := by
  have hI : Inv e := ⟨hbuf, by omega, by omega⟩
  have hc : contenido e = [] := contenido_de_indice_cero e hidx
  obtain ⟨a, ha, haI, ha1, ha2, ha3, ha4⟩ := alimentar_marcos_spec chunks e co hI
  obtain ⟨o, ho, hoI, ho1, ho2, ho3, ho4⟩ := bucle_bytes_marcos (s ++ [13, 10]) e co hI
  rw [hc] at ha1 ha2 ha3 ha4 ho1 ho2 ho3 ho4
  have hf : (s ++ [13]).filter (fun c => c != 13) = s.filter (fun c => c != 13) := by
    simp [List.filter_append]
  have hfl : (s.filter (fun c => c != 13)).length < 255 :=
    lt_of_le_of_lt (List.length_filter_le _ _) hlen
  have hnl2 : 10 ∉ s ++ [13] := by simp [hnl]
  have hpre : (bucle_marcos [] co (s ++ [13])).retorno = 0 := by
    have := bucle_marcos_tramo (s ++ [13]) [] [] co hnl2 (by rw [hf]; simpa using hfl)
    rw [List.append_nil] at this
    rw [this, bucle_marcos_nil]
  have hsplit : s ++ [13, 10] = (s ++ [13]) ++ [10] := by simp
  have hwhole : bucle_marcos [] co (s ++ [13, 10]) =
      { retorno := if (prefiltro_y_decodificador (s.filter (fun c => c != 13)) co).1 ≠ 0 then 1
                   else 0,
        marco := [],
        coords := (prefiltro_y_decodificador (s.filter (fun c => c != 13)) co).2,
        sentencias := [s.filter (fun c => c != 13)] } := by
    rw [hsplit, bucle_marcos_tramo (s ++ [13]) [10] [] co hnl2 (by rw [hf]; simpa using hfl),
      hf, List.nil_append, bucle_marcos_fin_solo _ _ _ (Or.inl rfl)]
  rw [hsplit] at hch
  obtain ⟨j1, j2, j3, j4, _⟩ := alimentar_marcos_join chunks [] co (s ++ [13]) 10 hch hpre
  rw [← hsplit, hwhole] at j1 j2 j3 j4
  rw [hwhole] at ho1 ho2 ho3 ho4
  refine ⟨a, o, ha, by rw [leer_datos_gps_eq]; exact ho, ?_, ho4, ?_, ho3, ?_, ?_, ?_, ?_⟩
  · rw [ha4, j3]
  · rw [ha2, j2, ho3]
  · rw [ha3, j4, ho1]
  · rw [ho1]
    by_cases hr : (prefiltro_y_decodificador (s.filter (fun c => c != 13)) co).1 = 0
    · simp [hr]
    · simp [hr]
  · exact indice_cero_de_contenido _ haI (by rw [ha1, j1])
  · exact indice_cero_de_contenido _ hoI ho2

theorem C2_independencia_de_cortes_witness :
    (bytes "$GPGGA,1").length < 255 ∧ 10 ∉ bytes "$GPGGA,1" ∧ 0 ∉ bytes "$GPGGA,1"
      ∧ estado_inicial.buffer_nmea.length = 256 ∧ estado_inicial.indice_buffer = 0
      ∧ [bytes "$GP", bytes "GGA,1" ++ [13], [], [10]].flatten = bytes "$GPGGA,1" ++ [13, 10]
      ∧ ∃ a, alimentar estado_inicial ⟨0, 0, 0⟩ [bytes "$GP", bytes "GGA,1" ++ [13], [], [10]]
            = some a
          ∧ a.sentencias = [(bytes "$GPGGA,1").filter (fun c => c != 13)]
          ∧ a.estado.indice_buffer = 0 :=
  ⟨by decide, by decide, by decide, List.length_replicate 256 0, rfl, by decide,
    (C2_independencia_de_cortes (bytes "$GPGGA,1") (by decide) (by decide) (by decide)
      estado_inicial (List.length_replicate 256 0) rfl ⟨0, 0, 0⟩ [bytes "$GP", bytes "GGA,1" ++ [13], [], [10]]
      (by decide)).elim
      (fun a h => h.elim (fun _ h2 => ⟨a, h2.1, h2.2.2.1, h2.2.2.2.2.2.2.2.2.1⟩))⟩

/-- C3 (code defect, evaluation): the example of the claim decodes as stated, but on a
`$GPGGA` sentence with 15 comma-separated fields whose fields 2, 3, 4, 5 and 9 are filled and
whose field 8 is empty, `strtok` drops the empty field, so `tokens[9]` is `"M"` and the
altitude returned is `0` instead of the value `545.4` of field 9. -/
theorem C3_campo_vacio_desplaza_tokens :
    procesar_sentencia_nmea
        (bytes "$GPGGA,123519,4807.038,N,01131.000,E,1,08,0.9,545.4,M,46.9,M,,*47") ⟨0, 0, 0⟩
      = (1, ⟨481173 / 10000, 11 + 31 / 60, 5454 / 10⟩)
    ∧ strstr (bytes "$GPGGA,123519,4807.038,N,01131.000,E,1,08,,545.4,M,46.9,M,,*47")
        (bytes "$GPGGA") = true
    ∧ (campos (bytes "$GPGGA,123519,4807.038,N,01131.000,E,1,08,,545.4,M,46.9,M,,*47")).map
        List.length = [6, 6, 8, 1, 9, 1, 1, 2, 0, 5, 1, 4, 1, 0, 3]
    ∧ (campos (bytes "$GPGGA,123519,4807.038,N,01131.000,E,1,08,,545.4,M,46.9,M,,*47")).getD 9 []
      = bytes "545.4"
    ∧ atof (bytes "545.4") = 5454 / 10
    ∧ procesar_sentencia_nmea
        (bytes "$GPGGA,123519,4807.038,N,01131.000,E,1,08,,545.4,M,46.9,M,,*47") ⟨0, 0, 0⟩
      = (1, ⟨481173 / 10000, 11 + 31 / 60, 0⟩) := by
  decide!

/-- C4 (amended): for text whose `float` value `V` is finite and non-negative, with the
`float` quotient `V/100` below `2^31`, the converter with `N` returns
`floor(V/100) + (V - floor(V/100)*100)/60` evaluated in binary32, every operation rounded to
nearest; for `"4807.038"` this is the `float` `6306831/2^17`, within `1e-3` of `48.1173`. -/
theorem C4_formula_grados_binary32 (raw : List Nat) (v : ℚ)
    (hv : atof_binary32 raw = some v) (h0 : 0 ≤ v)
    (hq : redondear32 (v / 100) < 2147483648) :
    convertir_grados_minutos_a_decimal_binary32 raw 78 = some (formula_grados redondear32 v)
      ∧ convertir_grados_minutos_a_decimal_binary32 (bytes "4807.038") 78
          = some (6306831 / 131072)
      ∧ |(6306831 / 131072 : ℚ) - 481173 / 10000| ≤ 1 / 1000 := by
  refine ⟨?_, by decide!, by decide!⟩
  have hq0 : 0 ≤ redondear32 (v / 100) :=
    redondear_binario_nonneg 24 (-149) _ (div_nonneg h0 (by norm_num))
  have htr : truncar (redondear32 (v / 100)) = ⌊redondear32 (v / 100)⌋ := truncar_nonneg _ hq0
  have hfl0 : 0 ≤ ⌊redondear32 (v / 100)⌋ := Int.floor_nonneg.mpr hq0
  have hfl1 : ⌊redondear32 (v / 100)⌋ < 2147483648 := by
    rw [Int.floor_lt]
    exact_mod_cast hq
  have hg : a_int (redondear32 (v / 100)) = some ⌊redondear32 (v / 100)⌋ := by
    unfold a_int
    rw [htr, if_pos ⟨by omega, by omega⟩]
  rw [convertir_binary32_de_entero raw 78 v _ hv hg, if_neg (by decide)]
  rfl

theorem C4_formula_grados_binary32_witness :
    atof_binary32 (bytes "0130.5") = some (261 / 2) ∧ (0 : ℚ) ≤ 261 / 2
      ∧ redondear32 ((261 / 2 : ℚ) / 100) < 2147483648
      ∧ convertir_grados_minutos_a_decimal_binary32 (bytes "0130.5") 78
          = some (formula_grados redondear32 (261 / 2)) :=
  ⟨by decide!, by decide!, by decide!,
    (C4_formula_grados_binary32 (bytes "0130.5") (261 / 2) (by decide!) (by decide!)
      (by decide!)).1⟩

/-- C4, as stated, fails: the program computes in binary32 with a 32-bit `int`, not in exact
arithmetic. For `"4807.038"` the result is the `float` `6306831/2^17`, which is neither
`48 + 7.038/60` nor the exact formula at the `float` value `4922407/2^10` of the text; for
`"9999.99999"` the text is read as the `float` `10000` and the result is `100`, while the
exact formula at `9999.99999` gives `99 + 99.99999/60`; for `"1e12"` the quotient is outside
`int` and the cast has no defined result. -/
theorem C4_contraejemplo :
    convertir_grados_minutos_a_decimal_binary32 (bytes "4807.038") 78
        = some (6306831 / 131072)
      ∧ (6306831 / 131072 : ℚ) ≠ 48 + (7038 / 1000) / 60
      ∧ atof (bytes "4807.038") = 4807038 / 1000
      ∧ (6306831 / 131072 : ℚ) ≠ formula_grados (fun x => x) (4807038 / 1000)
      ∧ atof_binary32 (bytes "4807.038") = some (4922407 / 1024)
      ∧ (6306831 / 131072 : ℚ) ≠ formula_grados (fun x => x) (4922407 / 1024)
      ∧ convertir_grados_minutos_a_decimal_binary32 (bytes "9999.99999") 78 = some 100
      ∧ atof (bytes "9999.99999") = 999999999 / 100000
      ∧ formula_grados (fun x => x) (999999999 / 100000) = 99 + (9999999 / 100000) / 60
      ∧ atof_binary32 (bytes "9999.99999") = some 10000
      ∧ atof_binary32 (bytes "1e12") = some 999999995904
      ∧ a_int (redondear32 ((999999995904 : ℚ) / 100)) = none
      ∧ convertir_grados_minutos_a_decimal_binary32 (bytes "1e12") 78 = none := by
  decide!

/-- C6 (amended): for two complete sentences (bodies without newline, each shorter than the
buffer capacity with its `\n`) of which the first does not decode to a Fix, feeding both in
one chunk from an empty buffer finalises exactly two frames, the first body then the second
(carriage returns removed), each handed to the prefilter and decoder; the call returns the
second frame's outcome. -/
theorem C6_dos_sentencias (b1 b2 : List Nat) (h1 : 10 ∉ b1) (h2 : 10 ∉ b2)
    (hl1 : b1.length < 255) (hl2 : b2.length < 255) (e : Estado)
    (hbuf : e.buffer_nmea.length = 256) (hidx : e.indice_buffer = 0) (co : Coordenadas)
    (hno : (prefiltro_y_decodificador (b1.filter (fun c => c != 13)) co).1 = 0) :
    ∃ o, leer_datos_gps e (b1 ++ [10] ++ (b2 ++ [10])) co = some o
      ∧ o.sentencias = [b1.filter (fun c => c != 13), b2.filter (fun c => c != 13)]
      ∧ o.coords = (prefiltro_y_decodificador (b2.filter (fun c => c != 13)) co).2
      ∧ (o.retorno = 1 ↔ (prefiltro_y_decodificador (b2.filter (fun c => c != 13)) co).1 ≠ 0)
      ∧ o.estado.indice_buffer = 0 := by
  have hI : Inv e := ⟨hbuf, by omega, by omega⟩
  have hc : contenido e = [] := contenido_de_indice_cero e hidx
  obtain ⟨o, ho, hoI, ho1, ho2, ho3, ho4⟩ :=
    bucle_bytes_marcos (b1 ++ [10] ++ (b2 ++ [10])) e co hI
  have hco : (prefiltro_y_decodificador (b1.filter (fun c => c != 13)) co).2 = co :=
    (prefiltro_retorno_iff _ co).2.2 hno
  have hw : bucle_marcos [] co (b1 ++ [10] ++ (b2 ++ [10])) =
      { retorno := if (prefiltro_y_decodificador (b2.filter (fun c => c != 13)) co).1 ≠ 0 then 1
                   else 0,
        marco := [],
        coords := (prefiltro_y_decodificador (b2.filter (fun c => c != 13)) co).2,
        sentencias := [b1.filter (fun c => c != 13), b2.filter (fun c => c != 13)] } := by
    rw [List.append_assoc,
      bucle_marcos_tramo b1 _ [] co h1 (by simpa using length_filter_lt b1 255 hl1),
      List.nil_append, List.singleton_append,
      bucle_marcos_fin_nofix _ co 10 _ (Or.inl rfl) hno, hco,
      bucle_marcos_tramo b2 _ [] co h2 (by simpa using length_filter_lt b2 255 hl2),
      List.nil_append, bucle_marcos_fin_solo _ _ _ (Or.inl rfl)]
    simp [SalidaM.con]
  rw [hc, hw] at ho1 ho2 ho3 ho4
  refine ⟨o, by rw [leer_datos_gps_eq]; exact ho, ho4, ho3, ?_,
    indice_cero_de_contenido _ hoI ho2⟩
  rw [ho1]
  by_cases hr : (prefiltro_y_decodificador (b2.filter (fun c => c != 13)) co).1 = 0
  · simp [hr]
  · simp [hr]

theorem C6_dos_sentencias_witness :
    10 ∉ bytes "$GPRMC,1" ++ [13] ∧ 10 ∉ bytes "$GPGGA,2" ++ [13]
      ∧ (bytes "$GPRMC,1" ++ [13]).length < 255 ∧ (bytes "$GPGGA,2" ++ [13]).length < 255
      ∧ estado_inicial.buffer_nmea.length = 256 ∧ estado_inicial.indice_buffer = 0
      ∧ (prefiltro_y_decodificador ((bytes "$GPRMC,1" ++ [13]).filter (fun c => c != 13))
          ⟨0, 0, 0⟩).1 = 0
      ∧ ∃ o, leer_datos_gps estado_inicial
            (bytes "$GPRMC,1" ++ [13] ++ [10] ++ (bytes "$GPGGA,2" ++ [13] ++ [10])) ⟨0, 0, 0⟩
            = some o
          ∧ o.sentencias = [(bytes "$GPRMC,1" ++ [13]).filter (fun c => c != 13),
                            (bytes "$GPGGA,2" ++ [13]).filter (fun c => c != 13)] :=
  ⟨by decide, by decide, by decide, by decide, List.length_replicate 256 0, rfl, by decide!,
    (C6_dos_sentencias (bytes "$GPRMC,1" ++ [13]) (bytes "$GPGGA,2" ++ [13]) (by decide)
      (by decide) (by decide) (by decide) estado_inicial (List.length_replicate 256 0) rfl
      ⟨0, 0, 0⟩ (by decide!)).elim (fun o h => ⟨o, h.1, h.2.1⟩)⟩

/-- C6, as stated, fails: when the first of two complete sentences in one chunk decodes to a
Fix, `leer_datos_gps` returns at once; only the first frame is finalised and the second
sentence is never framed. -/
theorem C6_contraejemplo :
    (leer_datos_gps estado_inicial
        (bytes "$GPGGA,123519,4807.038,N,01131.000,E,1,08,0.9,545.4,M,46.9,M,,*47" ++ [13, 10]
          ++ (bytes "$GPRMC,081836,A,3751.65,S,14507.36,E" ++ [13, 10])) ⟨0, 0, 0⟩).map
        (fun o => (o.retorno, o.sentencias))
      = some (1, [bytes "$GPGGA,123519,4807.038,N,01131.000,E,1,08,0.9,545.4,M,46.9,M,,*47"])
    ∧ (bytes "$GPGGA,123519,4807.038,N,01131.000,E,1,08,0.9,545.4,M,46.9,M,,*47" ++ [13, 10]
          ++ (bytes "$GPRMC,081836,A,3751.65,S,14507.36,E" ++ [13, 10])).length ≤ 127 := by
  decide!

/-- C7 (code defect, evaluation): on the claim's own example, whose latitude field is empty,
`strtok` skips the empty field, the non-empty test passes on the shifted tokens and the
decoder returns 1 with coordinates `(0, 0, 0)`; `leer_datos_gps` reports a fix. -/
theorem C7_latitud_vacia_da_fix :
    (campos (bytes "$GPGGA,123519,,N,01131.000,E,1,08,0.9,545.4,M,46.9,M,,*47")).getD 2 [] = []
    ∧ bucle_tokens 20 (bytes "$GPGGA,123519,,N,01131.000,E,1,08,0.9,545.4,M,46.9,M,,*47")
      = [bytes "$GPGGA", bytes "123519", bytes "N", bytes "01131.000", bytes "E", bytes "1",
         bytes "08", bytes "0.9", bytes "545.4", bytes "M", bytes "46.9", bytes "M", bytes "*47"]
    ∧ procesar_sentencia_nmea
        (bytes "$GPGGA,123519,,N,01131.000,E,1,08,0.9,545.4,M,46.9,M,,*47") ⟨7, 7, 7⟩
      = (1, ⟨0, 0, 0⟩)
    ∧ (leer_datos_gps estado_inicial
        (bytes "$GPGGA,123519,,N,01131.000,E,1,08,0.9,545.4,M,46.9,M,,*47" ++ [13, 10])
        ⟨7, 7, 7⟩).map (fun o => (o.retorno, o.coords))
      = some (1, ⟨0, 0, 0⟩) := by
  decide!

/-- C8 (amended): a finalised frame whose text does not contain `$GPGGA` anywhere (so every
`$GPRMC` or other sentence without an embedded `$GPGGA`) yields NoFix whatever its fields:
`leer_datos_gps` returns 0 for it and leaves the coordinates untouched. -/
theorem C8_sin_marcador_no_hay_fix (e : Estado) (hbuf : e.buffer_nmea.length = 256)
    (h0 : 0 ≤ e.indice_buffer) (h255 : e.indice_buffer ≤ 255) (c : Nat)
    (hfin : c = 10 ∨ e.indice_buffer = 255) (co : Coordenadas)
    (hno : strstr (cadena (contenido e)) (bytes "$GPGGA") = false) :
    ∃ o, leer_datos_gps e [c] co = some o ∧ o.retorno = 0 ∧ o.coords = co
      ∧ o.sentencias = [contenido e] ∧ o.estado.indice_buffer = 0 := by
  obtain ⟨o, ho, h1, h2, h3, h4⟩ := finalizar_un_byte e ⟨hbuf, h0, h255⟩ c hfin co
  have hp : prefiltro_y_decodificador (contenido e) co = (0, co) := by
    simp [prefiltro_y_decodificador, hno]
  rw [hp] at h1 h2
  exact ⟨o, ho, by simpa using h1, h2, h3, h4⟩

theorem C8_sin_marcador_no_hay_fix_witness :
    (Estado.mk (bytes "$GPRMC,1" ++ List.replicate 248 0) 8).buffer_nmea.length = 256
      ∧ strstr (cadena (contenido (Estado.mk (bytes "$GPRMC,1" ++ List.replicate 248 0) 8)))
          (bytes "$GPGGA") = false
      ∧ ∃ o, leer_datos_gps (Estado.mk (bytes "$GPRMC,1" ++ List.replicate 248 0) 8) [10]
            ⟨1, 2, 3⟩ = some o
          ∧ o.retorno = 0 ∧ o.coords = ⟨1, 2, 3⟩
          ∧ o.sentencias = [contenido (Estado.mk (bytes "$GPRMC,1" ++ List.replicate 248 0) 8)]
          ∧ o.estado.indice_buffer = 0 :=
  ⟨by decide!, by decide!,
    C8_sin_marcador_no_hay_fix (Estado.mk (bytes "$GPRMC,1" ++ List.replicate 248 0) 8)
      (by decide!) (by decide) (by decide) 10 (Or.inl rfl) ⟨1, 2, 3⟩ (by decide!)⟩

/-- C8, as stated, fails: a frame that begins with `$GPRMC` but contains `$GPGGA` further on
(here a `$GPRMC` line run together with the start of the next line) passes the prefilter and
is decoded to a Fix. -/
theorem C8_contraejemplo :
    (bytes "$GPRMC").isPrefixOf
        (bytes "$GPRMC,081836,A,3751.65,S,14507.36,E,000.0,360.0,130998,011.3,E*62$GPGGA") = true
      ∧ (leer_datos_gps estado_inicial
          (bytes "$GPRMC,081836,A,3751.65,S,14507.36,E,000.0,360.0,130998,011.3,E*62$GPGGA"
            ++ [13, 10]) ⟨7, 7, 7⟩).map (fun o => (o.retorno, o.coords))
        = some (1, ⟨0, 0, 130998⟩) := by
  decide!

/-- C9 (amended): when the first line fed from an empty buffer has more than 255 bytes other
than `\r` before its `\n`, the first finalised frame is exactly the first 255 of those bytes,
for every cutting into chunks; and, provided none of the frames cut from that line decodes to
a Fix (the line with its `\n` returns 0), the frames finalised are those of the line followed
by the next complete sentence, intact, and the buffer is left empty. -/
theorem C9_linea_larga (linea b2 : List Nat) (h10 : 10 ∉ linea)
    (hlarga : 255 < (linea.filter (fun c => c != 13)).length) (h2 : 10 ∉ b2)
    (hl2 : b2.length < 255) (e : Estado) (hbuf : e.buffer_nmea.length = 256)
    (hidx : e.indice_buffer = 0) (co : Coordenadas) (chunks : List (List Nat))
    (hch : chunks.flatten = linea ++ [10] ++ (b2 ++ [10])) :
    ∃ a o, alimentar e co chunks = some a ∧ leer_datos_gps e (linea ++ [10]) co = some o
      ∧ a.sentencias.head? = some ((linea.filter (fun c => c != 13)).take 255)
      ∧ (o.retorno = 0 →
          a.sentencias = o.sentencias ++ [b2.filter (fun c => c != 13)]
            ∧ a.estado.indice_buffer = 0) := by
  have hI : Inv e := ⟨hbuf, by omega, by omega⟩
  have hc : contenido e = [] := contenido_de_indice_cero e hidx
  obtain ⟨a, ha, haI, ha1, _, _, ha4⟩ := alimentar_marcos_spec chunks e co hI
  obtain ⟨o, ho, _, ho1, _, _, ho4⟩ := bucle_bytes_marcos (linea ++ [10]) e co hI
  rw [hc] at ha1 ha4 ho1 ho4
  refine ⟨a, o, ha, by rw [leer_datos_gps_eq]; exact ho, ?_, ?_⟩
  · rw [ha4]
    have := alimentar_marcos_primer_marco chunks [] co linea ([10] ++ (b2 ++ [10]))
      (by rw [hch, List.append_assoc]) h10 (by simp) (by simp; omega)
    simpa using this
  · intro hr
    rw [ho1] at hr
    have hm := bucle_marcos_nl_marco linea [] co hr
    obtain ⟨hb0, hbw⟩ := bucle_marcos_cuerpo_nl b2 (bucle_marcos [] co (linea ++ [10])).coords
      h2 hl2
    have hpre : (bucle_marcos [] co (linea ++ [10] ++ b2)).retorno = 0 := by
      rw [bucle_marcos_append (linea ++ [10]) b2 [] co hr, SalidaM.con_retorno, hm]
      exact hb0
    have hch2 : chunks.flatten = (linea ++ [10] ++ b2) ++ [10] := by
      rw [hch]; simp
    obtain ⟨j1, _, j3, _, _⟩ := alimentar_marcos_join chunks [] co (linea ++ [10] ++ b2) 10
      hch2 hpre
    have hw : bucle_marcos [] co (linea ++ [10] ++ b2 ++ [10]) =
        SalidaM.con (bucle_marcos [] co (linea ++ [10])).sentencias
          (bucle_marcos [] (bucle_marcos [] co (linea ++ [10])).coords (b2 ++ [10])) := by
      rw [List.append_assoc (linea ++ [10]) b2 [10],
        bucle_marcos_append (linea ++ [10]) (b2 ++ [10]) [] co hr, hm]
    rw [hw, hbw] at j1 j3
    constructor
    · rw [ha4, j3, ho4]; rfl
    · exact indice_cero_de_contenido _ haI (by rw [ha1, j1]; rfl)

set_option maxRecDepth 100000 in
theorem C9_linea_larga_witness :
    10 ∉ List.replicate 256 65
      ∧ 255 < ((List.replicate 256 65).filter (fun c => c != 13)).length
      ∧ 10 ∉ bytes "$GPRMC,1" ++ [13] ∧ (bytes "$GPRMC,1" ++ [13]).length < 255
      ∧ estado_inicial.buffer_nmea.length = 256 ∧ estado_inicial.indice_buffer = 0
      ∧ [List.replicate 127 65, List.replicate 127 65,
          List.replicate 2 65 ++ [10] ++ (bytes "$GPRMC,1" ++ [13] ++ [10])].flatten
        = List.replicate 256 65 ++ [10] ++ (bytes "$GPRMC,1" ++ [13] ++ [10])
      ∧ ∃ a o, alimentar estado_inicial ⟨0, 0, 0⟩
            [List.replicate 127 65, List.replicate 127 65,
              List.replicate 2 65 ++ [10] ++ (bytes "$GPRMC,1" ++ [13] ++ [10])] = some a
          ∧ leer_datos_gps estado_inicial (List.replicate 256 65 ++ [10]) ⟨0, 0, 0⟩ = some o
          ∧ a.sentencias.head?
            = some (((List.replicate 256 65).filter (fun c => c != 13)).take 255)
          ∧ o.retorno = 0
          ∧ a.sentencias
            = o.sentencias ++ [(bytes "$GPRMC,1" ++ [13]).filter (fun c => c != 13)]
          ∧ a.estado.indice_buffer = 0 := by
  refine ⟨by decide!, by decide!, by decide, by decide, List.length_replicate 256 0, rfl,
    by decide!, ?_⟩
  obtain ⟨a, o, ha, ho, hh, himp⟩ :=
    C9_linea_larga (List.replicate 256 65) (bytes "$GPRMC,1" ++ [13]) (by decide!)
      (by decide!) (by decide) (by decide) estado_inicial (List.length_replicate 256 0) rfl
      ⟨0, 0, 0⟩
      [List.replicate 127 65, List.replicate 127 65,
        List.replicate 2 65 ++ [10] ++ (bytes "$GPRMC,1" ++ [13] ++ [10])]
      (by decide!)
  have hev : (leer_datos_gps estado_inicial (List.replicate 256 65 ++ [10]) ⟨0, 0, 0⟩).map
      (fun o => o.retorno) = some 0 := by decide!
  rw [ho] at hev
  have hr : o.retorno = 0 := by simpa using hev
  exact ⟨a, o, ha, ho, hh, hr, (himp hr).1, (himp hr).2⟩

set_option maxRecDepth 100000 in
/-- C9, as stated, fails in its second part: a first line of 256 characters that starts with
a full `$GPGGA` sentence, fed in chunks of at most 127 bytes, is cut after 255 characters, that
frame decodes to a Fix, the call returns, and the rest of its chunk, with the complete
sentence `$GPRMC,1` that follows the line, is never framed. -/
theorem C9_contraejemplo :
    (alimentar estado_inicial ⟨0, 0, 0⟩
        [bytes "$GPGGA,123519,4807.038,N,01131.000,E,1,08,0.9,545.4,M,46.9,M,,*47"
           ++ List.replicate 62 65,
         List.replicate 127 65,
         [65, 65, 13, 10] ++ bytes "$GPRMC,1" ++ [13, 10]]).map
        (fun a => (a.retornos, a.sentencias))
      = some ([0, 0, 1],
          [bytes "$GPGGA,123519,4807.038,N,01131.000,E,1,08,0.9,545.4,M,46.9,M,,*47"
             ++ List.replicate 190 65])
    ∧ bytes "$GPRMC,1" ∉
        [bytes "$GPGGA,123519,4807.038,N,01131.000,E,1,08,0.9,545.4,M,46.9,M,,*47"
           ++ List.replicate 190 65] := by
  decide!

/-- C10 (amended): a frame finalised because 255 characters are buffered goes through the
same prefilter and decoder as a newline-terminated one. It is discarded (return 0,
coordinates untouched) exactly when its text lacks `$GPGGA` or has fewer than 10 non-empty
comma-separated tokens; otherwise it yields a Fix with the decoder's coordinates. -/
theorem C10_marco_truncado (e : Estado) (hbuf : e.buffer_nmea.length = 256)
    (hidx : e.indice_buffer = 255) (c : Nat) (co : Coordenadas) :
    ∃ o, leer_datos_gps e [c] co = some o
      ∧ o.sentencias = [e.buffer_nmea.take 255] ∧ o.estado.indice_buffer = 0
      ∧ (o.retorno = 0 ∨ o.retorno = 1)
      ∧ (o.retorno = 1 ↔
          strstr (cadena (e.buffer_nmea.take 255)) (bytes "$GPGGA") = true
            ∧ 10 ≤ (bucle_tokens 20 ((cadena (e.buffer_nmea.take 255)).take 255)).length)
      ∧ (o.retorno = 0 → o.coords = co)
      ∧ (o.retorno = 1 →
          o.coords = (procesar_sentencia_nmea (cadena (e.buffer_nmea.take 255)) co).2) := by
  have hI : Inv e := ⟨hbuf, by omega, by omega⟩
  obtain ⟨o, ho, h1, h2, h3, h4⟩ := finalizar_un_byte e hI c (Or.inr hidx) co
  have hc : contenido e = e.buffer_nmea.take 255 := by simp [contenido, hidx]
  rw [hc] at h1 h2 h3
  obtain ⟨p1, p2, p3⟩ := prefiltro_retorno_iff (e.buffer_nmea.take 255) co
  refine ⟨o, ho, h3, h4, ?_, ?_, ?_, ?_⟩
  · rw [h1]; split <;> simp
  · rw [← p1, h1]
    by_cases hne : (prefiltro_y_decodificador (e.buffer_nmea.take 255) co).1 ≠ 0
    · rw [if_pos hne]; exact ⟨fun _ => hne, fun _ => rfl⟩
    · rw [if_neg hne]; exact ⟨fun h => absurd h (by decide), fun h => absurd h hne⟩
  · intro hr
    rw [h2]; apply p3
    rw [h1] at hr
    by_contra hne
    rw [if_pos hne] at hr
    exact absurd hr (by decide)
  · intro hr
    rw [h2]
    have hne : (prefiltro_y_decodificador (e.buffer_nmea.take 255) co).1 ≠ 0 := by
      intro h0
      rw [h1, if_neg (by simpa using h0)] at hr
      exact absurd hr (by decide)
    have hs := (p1.mp hne).1
    simp [prefiltro_y_decodificador, hs]

theorem C10_marco_truncado_witness :
    (Estado.mk (List.replicate 255 65 ++ [0]) 255).buffer_nmea.length = 256
      ∧ (Estado.mk (List.replicate 255 65 ++ [0]) 255).indice_buffer = 255
      ∧ ∃ o, leer_datos_gps (Estado.mk (List.replicate 255 65 ++ [0]) 255) [66] ⟨1, 2, 3⟩
            = some o
          ∧ o.sentencias = [(Estado.mk (List.replicate 255 65 ++ [0]) 255).buffer_nmea.take 255]
          ∧ o.estado.indice_buffer = 0 ∧ o.retorno = 0 ∧ o.coords = ⟨1, 2, 3⟩ := by
  refine ⟨by decide!, rfl, ?_⟩
  obtain ⟨o, ho, hs, hi, hor, hiff, h0, _⟩ :=
    C10_marco_truncado (Estado.mk (List.replicate 255 65 ++ [0]) 255) (by decide!) rfl 66
      ⟨1, 2, 3⟩
  have hno : strstr (cadena ((Estado.mk (List.replicate 255 65 ++ [0]) 255).buffer_nmea.take 255))
      (bytes "$GPGGA") = false := by decide!
  have hr : o.retorno = 0 := by
    rcases hor with h | h
    · exact h
    · have := (hiff.mp h).1
      rw [hno] at this
      exact absurd this (by decide)
  exact ⟨o, ho, hs, hi, hr, h0 hr⟩

set_option maxRecDepth 100000 in
/-- C10, as stated, fails: 255 buffered characters that start with a full `$GPGGA` sentence
and go on without a newline (fed in chunks of 127, 127 and 1 bytes) are finalised by the next
byte, pass the prefilter and are decoded: that call returns 1 and writes the coordinates. -/
theorem C10_contraejemplo :
    (alimentar estado_inicial ⟨7, 7, 7⟩
        [bytes "$GPGGA,123519,4807.038,N,01131.000,E,1,08,0.9,545.4,M,46.9,M,,*47"
           ++ List.replicate 62 65,
         List.replicate 127 65, [65], [66]]).map
        (fun a => (a.retornos, a.coords, a.sentencias.map List.length,
                   a.estado.indice_buffer))
      = some ([0, 0, 0, 1], ⟨481173 / 10000, 11 + 31 / 60, 5454 / 10⟩, [255], 0) := by
  decide!

/-- C11 (amended): for every sequence of chunks fed from an empty buffer in which no call
reports a Fix before the last byte of its chunk (the call on the chunk without its last byte
returns 0) and no frame is finalised with 255 characters, no byte is lost: the finalised
frames, concatenated, followed by the buffered characters are the input chunks,
concatenated, with every `\r` and `\n` removed. -/
theorem C11_sin_perdida (e : Estado) (hbuf : e.buffer_nmea.length = 256)
    (hidx : e.indice_buffer = 0) (co : Coordenadas) (chunks : List (List Nat))
    (hult : ∀ i, i < chunks.length →
      (alimentar e co (chunks.take i)).bind
        (fun ap => (leer_datos_gps ap.estado (chunks.getD i []).dropLast ap.coords).map
          (fun q => q.retorno)) = some 0) :
    ∃ a, alimentar e co chunks = some a
      ∧ ((∀ f ∈ a.sentencias, f.length < 255) →
          a.sentencias.flatten ++ a.estado.buffer_nmea.take a.estado.indice_buffer.toNat
            = chunks.flatten.filter (fun c => c != 13 && c != 10)) := by
  have hI : Inv e := ⟨hbuf, by omega, by omega⟩
  have hc : contenido e = [] := contenido_de_indice_cero e hidx
  obtain ⟨a, ha, _, h1, _, _, h4⟩ := alimentar_marcos_spec chunks e co hI
  rw [hc] at h1 h4
  refine ⟨a, ha, ?_⟩
  intro hs
  have habs : ∀ i, i < chunks.length →
      (bucle_marcos (alimentar_marcos [] co (chunks.take i)).marco
        (alimentar_marcos [] co (chunks.take i)).coords (chunks.getD i []).dropLast).retorno
        = 0 := by
    intro i hi
    obtain ⟨ap, hap, hapI, p1, p2, _, _⟩ := alimentar_marcos_spec (chunks.take i) e co hI
    rw [hc] at p1 p2
    obtain ⟨q, hq, _, q1, _⟩ :=
      bucle_bytes_marcos (chunks.getD i []).dropLast ap.estado ap.coords hapI
    have := hult i hi
    rw [hap, Option.some_bind, leer_datos_gps_eq, hq, Option.map_some',
      Option.some.injEq] at this
    rw [← p1, ← p2, ← q1]
    exact this
  have := alimentar_marcos_conserva_ult chunks [] co habs (by rw [← h4]; exact hs)
  rw [← h4, ← h1] at this
  simpa [contenido] using this

theorem C11_sin_perdida_witness :
    estado_inicial.buffer_nmea.length = 256 ∧ estado_inicial.indice_buffer = 0
      ∧ (∀ i, i < [bytes "$GPGGA,123519,4807.038,N,01131.000,E,1,08,0.9,545.4,M" ++ [13, 10],
                    bytes "$GPRMC,08" ++ [13], [10] ++ bytes "$GP"].length →
          (alimentar estado_inicial ⟨0, 0, 0⟩
            ([bytes "$GPGGA,123519,4807.038,N,01131.000,E,1,08,0.9,545.4,M" ++ [13, 10],
              bytes "$GPRMC,08" ++ [13], [10] ++ bytes "$GP"].take i)).bind
            (fun ap => (leer_datos_gps ap.estado
              (([bytes "$GPGGA,123519,4807.038,N,01131.000,E,1,08,0.9,545.4,M" ++ [13, 10],
                 bytes "$GPRMC,08" ++ [13], [10] ++ bytes "$GP"].getD i []).dropLast)
              ap.coords).map (fun q => q.retorno)) = some 0)
      ∧ ∃ a, alimentar estado_inicial ⟨0, 0, 0⟩
            [bytes "$GPGGA,123519,4807.038,N,01131.000,E,1,08,0.9,545.4,M" ++ [13, 10],
             bytes "$GPRMC,08" ++ [13], [10] ++ bytes "$GP"] = some a
          ∧ a.retornos = [1, 0, 0]
          ∧ a.sentencias.flatten ++ a.estado.buffer_nmea.take a.estado.indice_buffer.toNat
            = bytes "$GPGGA,123519,4807.038,N,01131.000,E,1,08,0.9,545.4,M$GPRMC,08$GP" := by
  refine ⟨List.length_replicate 256 0, rfl, by decide!, ?_⟩
  obtain ⟨a, ha, himp⟩ :=
    C11_sin_perdida estado_inicial (List.length_replicate 256 0) rfl ⟨0, 0, 0⟩
      [bytes "$GPGGA,123519,4807.038,N,01131.000,E,1,08,0.9,545.4,M" ++ [13, 10],
       bytes "$GPRMC,08" ++ [13], [10] ++ bytes "$GP"] (by decide!)
  have hev : (alimentar estado_inicial ⟨0, 0, 0⟩
      [bytes "$GPGGA,123519,4807.038,N,01131.000,E,1,08,0.9,545.4,M" ++ [13, 10],
       bytes "$GPRMC,08" ++ [13], [10] ++ bytes "$GP"]).map
      (fun a => (a.retornos, a.sentencias))
      = some ([1, 0, 0], [bytes "$GPGGA,123519,4807.038,N,01131.000,E,1,08,0.9,545.4,M",
                          bytes "$GPRMC,08"]) := by decide!
  rw [ha, Option.map_some', Option.some.injEq, Prod.mk.injEq] at hev
  have hlen : ∀ f ∈ a.sentencias, f.length < 255 := by
    rw [hev.2]; decide
  refine ⟨a, ha, hev.1, ?_⟩
  rw [himp hlen]
  decide

set_option maxRecDepth 100000 in
/-- C11, as stated, fails in two ways. (1) The byte that arrives when 255 characters are
buffered finalises the frame and is itself not stored: after 255 `A`, then `B`, `C`, the
frames and buffer hold the 255 `A` and `C`, not `B`. (2) A call returns at the first Fix:
the bytes that follow it in the chunk are in no frame and not in the buffer. -/
theorem C11_contraejemplo :
    ((alimentar estado_inicial ⟨0, 0, 0⟩
        [List.replicate 127 65, List.replicate 127 65, [65, 66, 67]]).map
        (fun a => a.sentencias.flatten
          ++ a.estado.buffer_nmea.take a.estado.indice_buffer.toNat)
      = some (List.replicate 255 65 ++ [67])
      ∧ [List.replicate 127 65, List.replicate 127 65, [65, 66, 67]].flatten.filter
          (fun c => c != 13 && c != 10) = List.replicate 255 65 ++ [66, 67])
    ∧ ((alimentar estado_inicial ⟨0, 0, 0⟩
        [bytes "$GPGGA,123519,4807.038,N,01131.000,E,1,08,0.9,545.4,M" ++ [13, 10]
          ++ bytes "$GPRMC,08"]).map
        (fun a => a.sentencias.flatten
          ++ a.estado.buffer_nmea.take a.estado.indice_buffer.toNat)
      = some (bytes "$GPGGA,123519,4807.038,N,01131.000,E,1,08,0.9,545.4,M")
      ∧ [bytes "$GPGGA,123519,4807.038,N,01131.000,E,1,08,0.9,545.4,M" ++ [13, 10]
          ++ bytes "$GPRMC,08"].flatten.filter (fun c => c != 13 && c != 10)
        = bytes "$GPGGA,123519,4807.038,N,01131.000,E,1,08,0.9,545.4,M$GPRMC,08") := by
  decide!

/-- C12 (amended): for every framer state whose buffer holds 0 to 254 characters, a `\r`
input byte has no effect: globals and outputs are unchanged, nothing is finalised and the
prefilter and decoder are not called; the rest of the chunk is processed as if the `\r` were
not there. -/
theorem C12_cr_sin_efecto (e : Estado) (h0 : 0 ≤ e.indice_buffer)
    (h254 : e.indice_buffer < 255) (co : Coordenadas) (resto : List Nat) :
    leer_datos_gps e [13] co = some { retorno := 0, estado := e, coords := co, sentencias := [] }
      ∧ leer_datos_gps e (13 :: resto) co = leer_datos_gps e resto co := by
  have hcond : ¬ ((13 : Nat) = 10 ∨ e.indice_buffer % 4294967296 ≥ 255) := by
    intro h
    rcases h with h | h
    · exact absurd h (by decide)
    · omega
  constructor
  · rw [leer_datos_gps_eq]
    simp only [bucle_bytes, if_neg hcond, if_pos trivial]
  · rw [leer_datos_gps_eq, leer_datos_gps_eq]
    conv_lhs => rw [bucle_bytes]
    simp only [if_neg hcond, if_pos trivial]

theorem C12_cr_sin_efecto_witness :
    (0 : Int) ≤ estado_inicial.indice_buffer ∧ estado_inicial.indice_buffer < 255
      ∧ leer_datos_gps estado_inicial [13] ⟨1, 2, 3⟩
        = some { retorno := 0, estado := estado_inicial, coords := ⟨1, 2, 3⟩, sentencias := [] } :=
  ⟨by decide, by decide, (C12_cr_sin_efecto estado_inicial (by decide) (by decide) ⟨1, 2, 3⟩ []).1⟩

set_option maxRecDepth 100000 in
/-- C12, as stated, fails at buffer length 255: after 255 characters without a newline the
index is 255 and nothing is finalised; a `\r` then takes the full-buffer branch, the frame
is finalised and handed to the prefilter and the index returns to 0. -/
theorem C12_contraejemplo :
    (alimentar estado_inicial ⟨0, 0, 0⟩
        [List.replicate 127 65, List.replicate 127 65, [65]]).map
        (fun a => (a.estado.indice_buffer, a.sentencias)) = some (255, [])
    ∧ (alimentar estado_inicial ⟨0, 0, 0⟩
        [List.replicate 127 65, List.replicate 127 65, [65], [13]]).map
        (fun a => (a.estado.indice_buffer, a.sentencias))
      = some (0, [List.replicate 255 65]) := by
  decide!

/-- C13: from the initial state, after any sequence of calls on arbitrary chunks, the first
`indice_buffer` cells of the buffer hold neither `\r` nor `\n`, and no finalised frame, nor
the text the prefilter and decoder read from it, contains `\r` or `\n`. -/
theorem C13_sin_cr_ni_lf (chunks : List (List Nat)) (co : Coordenadas) :
    ∃ a, alimentar estado_inicial co chunks = some a
      ∧ (∀ c ∈ a.estado.buffer_nmea.take a.estado.indice_buffer.toNat, c ≠ 13 ∧ c ≠ 10)
      ∧ (∀ f ∈ a.sentencias, ∀ c ∈ f, c ≠ 13 ∧ c ≠ 10)
      ∧ (∀ f ∈ a.sentencias, ∀ c ∈ cadena f, c ≠ 13 ∧ c ≠ 10) := by
  obtain ⟨a, ha, _, h1, _, _, h4⟩ :=
    alimentar_marcos_spec chunks estado_inicial co inv_estado_inicial
  have hc : contenido estado_inicial = [] := contenido_de_indice_cero _ rfl
  rw [hc] at h1 h4
  obtain ⟨l1, l2⟩ := alimentar_marcos_limpio chunks [] co (by simp)
  rw [← h1] at l1
  rw [← h4] at l2
  exact ⟨a, ha, l1, l2, fun f hf c hc => l2 f hf c (cadena_subset f c hc)⟩

/-- C14: a Fix is all-or-nothing. `procesar_sentencia_nmea` either returns 1 with all three
outputs written (latitude and longitude from the converter on tokens 2/3 and 4/5, altitude
from token 9) or returns 0 with the three outputs unchanged; and a call of `leer_datos_gps`
returns 0 or 1 and leaves the three coordinates unchanged whenever it returns 0. -/
theorem C14_fix_todo_o_nada (s : List Nat) (co : Coordenadas) (e : Estado)
    (hbuf : e.buffer_nmea.length = 256) (h0 : 0 ≤ e.indice_buffer)
    (h255 : e.indice_buffer ≤ 255) (datos : List Nat) :
    (((procesar_sentencia_nmea s co).1 = 1
        ∧ (procesar_sentencia_nmea s co).2 =
          { latitud := convertir_grados_minutos_a_decimal
              ((bucle_tokens 20 ((cadena s).take 255)).getD 2 [])
              (((bucle_tokens 20 ((cadena s).take 255)).getD 3 []).headD 0)
            longitud := convertir_grados_minutos_a_decimal
              ((bucle_tokens 20 ((cadena s).take 255)).getD 4 [])
              (((bucle_tokens 20 ((cadena s).take 255)).getD 5 []).headD 0)
            altitud := atof ((bucle_tokens 20 ((cadena s).take 255)).getD 9 []) })
      ∨ ((procesar_sentencia_nmea s co).1 = 0 ∧ (procesar_sentencia_nmea s co).2 = co))
    ∧ ∃ o, leer_datos_gps e datos co = some o ∧ (o.retorno = 0 ∨ o.retorno = 1)
        ∧ (o.retorno = 0 → o.coords = co) := by
  constructor
  · have hne := bucle_tokens_ne 20 ((cadena s).take 255)
    by_cases h10 : 10 ≤ (bucle_tokens 20 ((cadena s).take 255)).length
    · left
      have h2 := getD_length_pos _ hne 2 (by omega)
      have h4 := getD_length_pos _ hne 4 (by omega)
      have h9 := getD_length_pos _ hne 9 (by omega)
      simp only [procesar_sentencia_nmea, ge_iff_le, if_pos h10,
        if_pos (And.intro h2 (And.intro h4 h9))]
      simp
    · right
      simp only [procesar_sentencia_nmea, ge_iff_le, if_neg h10]
      simp
  · obtain ⟨o, ho, _, ho1, _, ho3, _⟩ := bucle_bytes_marcos datos e co ⟨hbuf, h0, h255⟩
    refine ⟨o, by rw [leer_datos_gps_eq]; exact ho, ?_, ?_⟩
    · rw [ho1]; exact bucle_marcos_retorno _ _ _
    · intro hr
      rw [ho1] at hr
      rw [ho3]
      exact (bucle_marcos_sin_fix datos _ co hr).1

theorem C14_fix_todo_o_nada_witness :
    estado_inicial.buffer_nmea.length = 256 ∧ (0 : Int) ≤ estado_inicial.indice_buffer
      ∧ estado_inicial.indice_buffer ≤ 255
      ∧ ∃ o, leer_datos_gps estado_inicial (bytes "$GPRMC,1" ++ [13, 10]) ⟨1, 2, 3⟩ = some o
          ∧ o.retorno = 0 ∧ o.coords = ⟨1, 2, 3⟩ := by
  refine ⟨List.length_replicate 256 0, by decide, by decide, ?_⟩
  obtain ⟨o, ho, _, himp⟩ :=
    (C14_fix_todo_o_nada [] ⟨1, 2, 3⟩ estado_inicial (List.length_replicate 256 0) (by decide)
      (by decide) (bytes "$GPRMC,1" ++ [13, 10])).2
  have hev : (leer_datos_gps estado_inicial (bytes "$GPRMC,1" ++ [13, 10]) ⟨1, 2, 3⟩).map
      (fun o => o.retorno) = some 0 := by decide!
  rw [ho] at hev
  have hr : o.retorno = 0 := by simpa using hev
  exact ⟨o, ho, hr, himp hr⟩

/-- C15 (amended): for every sentence of at most 255 characters whose first ten fields are
all non-empty and whose two conversions of degrees and minutes are defined, whatever text the
numeric fields hold, the decode does not fail: the result is a Fix with the converter's values
for fields 2/3 and 4/5 and the `float` that `atof` reads from field 9; and a field from which
`strtod` converts nothing gives exactly 0 (0 degrees, and its conversion is defined; altitude
0). -/
theorem C15_texto_numerico_mal_formado (s : List Nat) (co : Coordenadas_binary32)
    (hlen : s.length ≤ 255) (hnul : 0 ∉ s) (h10 : 10 ≤ (campos s).length)
    (hne : ∀ i, i < 10 → (campos s).getD i [] ≠ []) (latitud longitud : ℚ)
    (hlat : convertir_grados_minutos_a_decimal_binary32 ((campos s).getD 2 [])
              (((campos s).getD 3 []).headD 0) = some latitud)
    (hlon : convertir_grados_minutos_a_decimal_binary32 ((campos s).getD 4 [])
              (((campos s).getD 5 []).headD 0) = some longitud) :
    procesar_sentencia_nmea_binary32 s co =
        some (1, { latitud := some latitud
                   longitud := some longitud
                   altitud := atof_binary32 ((campos s).getD 9 []) })
      ∧ (sin_conversion ((campos s).getD 2 []) = true → latitud = 0)
      ∧ (sin_conversion ((campos s).getD 4 []) = true → longitud = 0)
      ∧ (sin_conversion ((campos s).getD 9 []) = true →
          atof_binary32 ((campos s).getD 9 []) = some 0)
      ∧ (∀ t d, sin_conversion t = true →
          convertir_grados_minutos_a_decimal_binary32 t d = some 0) := by
  obtain ⟨hl, hg⟩ := tokens_de_campos s h10 hne
  have hne2 := bucle_tokens_ne 20 s
  have h2 := getD_length_pos _ hne2 2 (by omega)
  have h4 := getD_length_pos _ hne2 4 (by omega)
  have h9 := getD_length_pos _ hne2 9 (by omega)
  refine ⟨?_, ?_, ?_, ?_, ?_⟩
  · simp only [procesar_sentencia_nmea_binary32, copia_de_sentencia s hlen hnul, ge_iff_le,
      if_pos hl, if_pos (And.intro h2 (And.intro h4 h9))]
    rw [hg 2 (by omega), hg 3 (by omega), hg 4 (by omega), hg 5 (by omega), hg 9 (by omega),
      hlat, hlon]
    rfl
  · intro h
    rw [convertir_binary32_sin_conversion _ _ h] at hlat
    exact (Option.some.inj hlat).symm
  · intro h
    rw [convertir_binary32_sin_conversion _ _ h] at hlon
    exact (Option.some.inj hlon).symm
  · intro h; exact atof_binary32_sin_conversion _ h
  · intro t d h; exact convertir_binary32_sin_conversion t d h

theorem C15_texto_numerico_mal_formado_witness :
    (bytes "$GPGGA,123519,N,N,none,E,1,08,0.9,--,M").length ≤ 255
      ∧ 0 ∉ bytes "$GPGGA,123519,N,N,none,E,1,08,0.9,--,M"
      ∧ 10 ≤ (campos (bytes "$GPGGA,123519,N,N,none,E,1,08,0.9,--,M")).length
      ∧ (∀ i, i < 10 →
          (campos (bytes "$GPGGA,123519,N,N,none,E,1,08,0.9,--,M")).getD i [] ≠ [])
      ∧ convertir_grados_minutos_a_decimal_binary32 (bytes "N") 78 = some 0
      ∧ convertir_grados_minutos_a_decimal_binary32 (bytes "none") 69 = some 0
      ∧ sin_conversion (bytes "--") = true
      ∧ procesar_sentencia_nmea_binary32 (bytes "$GPGGA,123519,N,N,none,E,1,08,0.9,--,M")
          ⟨some 7, some 7, some 7⟩ = some (1, ⟨some 0, some 0, some 0⟩) := by
  have h := C15_texto_numerico_mal_formado
    (bytes "$GPGGA,123519,N,N,none,E,1,08,0.9,--,M") ⟨some 7, some 7, some 7⟩ (by decide)
    (by decide) (by decide) (by decide) 0 0 (by decide!) (by decide!)
  refine ⟨by decide, by decide, by decide, by decide, by decide!, by decide!, by decide, ?_⟩
  rw [h.1, h.2.2.2.1 (by decide)]

/-- C15, as stated, fails: numeric text that is not a well-formed number but starts like
one is read up to the first character that does not fit. With latitude `48O7.038` (letter O)
and altitude `545.4m` the decode is a Fix with latitude `0.8` degrees and altitude `545.4`
(as `float`), not 0. -/
theorem C15_contraejemplo :
    procesar_sentencia_nmea_binary32
        (bytes "$GPGGA,123519,48O7.038,N,01131.000,E,1,08,0.9,545.4m,M,46.9,M,,*47")
        ⟨some 0, some 0, some 0⟩
      = some (1, ⟨some (13421773 / 16777216), some (3019025 / 262144), some (4467917 / 8192)⟩)
    ∧ atof_binary32 (bytes "48O7.038") = some 48
    ∧ atof_binary32 (bytes "545.4m") = some (4467917 / 8192)
    ∧ sin_conversion (bytes "48O7.038") = false ∧ sin_conversion (bytes "545.4m") = false := by
  decide!

/-- C16: recovery after a rejected sentence. From every framer state, when `\n` finalises a
frame that is reported as NoFix, the call on that byte returns 0 with the index reset to 0
and the coordinates untouched; and what follows, in the same chunk or in a later call, is
framed and decoded exactly as by a framer whose buffer is empty. -/
theorem C16_recuperacion (e : Estado) (hbuf : e.buffer_nmea.length = 256)
    (h0 : 0 ≤ e.indice_buffer) (h255 : e.indice_buffer ≤ 255) (co : Coordenadas)
    (hno : (prefiltro_y_decodificador (contenido e) co).1 = 0) (resto : List Nat)
    (v : Estado) (hbufv : v.buffer_nmea.length = 256) (hidxv : v.indice_buffer = 0) :
    ∃ o1 o o2 ov, leer_datos_gps e [10] co = some o1
      ∧ o1.retorno = 0 ∧ o1.estado.indice_buffer = 0 ∧ o1.coords = co
      ∧ o1.sentencias = [contenido e]
      ∧ leer_datos_gps e (10 :: resto) co = some o
      ∧ leer_datos_gps o1.estado resto o1.coords = some o2
      ∧ leer_datos_gps v resto co = some ov
      ∧ o.retorno = ov.retorno ∧ o.coords = ov.coords
      ∧ o.sentencias = contenido e :: ov.sentencias
      ∧ contenido o.estado = contenido ov.estado
      ∧ o.estado.indice_buffer = ov.estado.indice_buffer
      ∧ o2.retorno = ov.retorno ∧ o2.coords = ov.coords ∧ o2.sentencias = ov.sentencias
      ∧ contenido o2.estado = contenido ov.estado
      ∧ o2.estado.indice_buffer = ov.estado.indice_buffer := by
  have hI : Inv e := ⟨hbuf, h0, h255⟩
  have hIv : Inv v := ⟨hbufv, by omega, by omega⟩
  have hcv : contenido v = [] := contenido_de_indice_cero v hidxv
  have hco : (prefiltro_y_decodificador (contenido e) co).2 = co :=
    (prefiltro_retorno_iff _ co).2.2 hno
  obtain ⟨o1, h1, r1, c1, s1, i1⟩ := finalizar_un_byte e hI 10 (Or.inl rfl) co
  rw [if_neg (by simpa using hno)] at r1
  rw [hco] at c1
  obtain ⟨o1', h1', I1, _⟩ := bucle_bytes_marcos [10] e co hI
  rw [leer_datos_gps_eq, h1'] at h1
  have e1 : o1' = o1 := Option.some.inj h1
  rw [e1] at I1 h1'
  have hc1 : contenido o1.estado = [] := contenido_de_indice_cero _ i1
  obtain ⟨o, ho, hoI, ho1, ho2, ho3, ho4⟩ := bucle_bytes_marcos (10 :: resto) e co hI
  obtain ⟨o2, h2, h2I, h21, h22, h23, h24⟩ := bucle_bytes_marcos resto o1.estado o1.coords I1
  obtain ⟨ov, hv, hvI, hv1, hv2, hv3, hv4⟩ := bucle_bytes_marcos resto v co hIv
  rw [bucle_marcos_fin_nofix _ co 10 resto (Or.inl rfl) hno, hco] at ho1 ho2 ho3 ho4
  simp only [SalidaM.con_retorno, SalidaM.con_marco, SalidaM.con_coords,
    SalidaM.con_sentencias, List.singleton_append] at ho1 ho2 ho3 ho4
  rw [hc1, c1] at h21 h22 h23 h24
  rw [hcv] at hv1 hv2 hv3 hv4
  have k1 : contenido o.estado = contenido ov.estado := by rw [ho2, hv2]
  have k2 : contenido o2.estado = contenido ov.estado := by rw [h22, hv2]
  refine ⟨o1, o, o2, ov, by rw [leer_datos_gps_eq]; exact h1', r1, i1, c1, s1,
    by rw [leer_datos_gps_eq]; exact ho, by rw [leer_datos_gps_eq]; exact h2,
    by rw [leer_datos_gps_eq]; exact hv, ?_, ?_, ?_, k1, indice_de_contenido _ _ hoI hvI k1,
    ?_, ?_, ?_, k2, indice_de_contenido _ _ h2I hvI k2⟩
  · rw [ho1, hv1]
  · rw [ho3, hv3]
  · rw [ho4, hv4]
  · rw [h21, hv1]
  · rw [h23, hv3]
  · rw [h24, hv4]

theorem C16_recuperacion_witness :
    (Estado.mk (bytes "$GPRMC,1" ++ List.replicate 248 0) 8).buffer_nmea.length = 256
      ∧ (prefiltro_y_decodificador
          (contenido (Estado.mk (bytes "$GPRMC,1" ++ List.replicate 248 0) 8)) ⟨1, 2, 3⟩).1 = 0
      ∧ estado_inicial.buffer_nmea.length = 256 ∧ estado_inicial.indice_buffer = 0
      ∧ ∃ o ov, leer_datos_gps (Estado.mk (bytes "$GPRMC,1" ++ List.replicate 248 0) 8)
            (10 :: (bytes "$GPGGA,2" ++ [13, 10])) ⟨1, 2, 3⟩ = some o
          ∧ leer_datos_gps estado_inicial (bytes "$GPGGA,2" ++ [13, 10]) ⟨1, 2, 3⟩ = some ov
          ∧ o.retorno = ov.retorno ∧ o.coords = ov.coords
          ∧ o.sentencias
            = contenido (Estado.mk (bytes "$GPRMC,1" ++ List.replicate 248 0) 8)
                :: ov.sentencias
          ∧ o.estado.indice_buffer = ov.estado.indice_buffer := by
  refine ⟨by decide!, by decide!, List.length_replicate 256 0, rfl, ?_⟩
  obtain ⟨_, o, _, ov, _, _, _, _, _, ho, _, hv, h1, h2, h3, _, h5, _⟩ :=
    C16_recuperacion (Estado.mk (bytes "$GPRMC,1" ++ List.replicate 248 0) 8) (by decide!)
      (by decide) (by decide) ⟨1, 2, 3⟩ (by decide!) (bytes "$GPGGA,2" ++ [13, 10])
      estado_inicial (List.length_replicate 256 0) rfl
  exact ⟨o, ov, ho, hv, h1, h2, h3, h5⟩

/-- C17: in the main loop, the counter equals the number of consecutive cycles without Fix
since the last Fix or the start; `"Connecting..."` is printed in a cycle exactly when that
cycle yields no Fix and this number, the cycle included, is a positive multiple of 10; it is
never printed in a cycle that yields a Fix. -/
theorem C17_latido (pre : List Int) (r : Int) :
    contador_tras pre = (sin_fix_seguidos pre : Int)
      ∧ ((ciclo (contador_tras pre) r).2 = true ↔
          r = 0 ∧ 0 < sin_fix_seguidos (pre ++ [r]) ∧ sin_fix_seguidos (pre ++ [r]) % 10 = 0)
      ∧ (r ≠ 0 → (ciclo (contador_tras pre) r).2 = false ∧ contador_tras (pre ++ [r]) = 0) := by
  refine ⟨contador_tras_eq pre, ?_, ?_⟩
  · rw [contador_tras_eq, sin_fix_seguidos_append, ciclo]
    by_cases h : r = 0
    · have ht : ((sin_fix_seguidos pre : Int) + 1).tmod 10
          = (((sin_fix_seguidos pre + 1) % 10 : Nat) : Int) := by
        rw [Int.ofNat_tmod]; rfl
      simp only [h, ne_eq, not_true_eq_false, if_false, if_true, decide_eq_true_eq, ht, true_and]
      constructor
      · intro hh
        exact ⟨by omega, by exact_mod_cast hh⟩
      · intro hh
        exact_mod_cast hh.2
    · simp [h]
  · intro h
    rw [contador_tras_append]
    simp [ciclo, h]

theorem C17_latido_witness :
    (1 : Int) ≠ 0
      ∧ (ciclo (contador_tras [0, 0, 1, 0, 0, 0, 0, 0, 0, 0, 0, 0]) 1).2 = false
      ∧ contador_tras ([0, 0, 1, 0, 0, 0, 0, 0, 0, 0, 0, 0] ++ [1]) = 0
      ∧ (ciclo (contador_tras [0, 0, 1, 0, 0, 0, 0, 0, 0, 0, 0, 0]) 0).2 = true :=
  ⟨by decide, ((C17_latido [0, 0, 1, 0, 0, 0, 0, 0, 0, 0, 0, 0] 1).2.2 (by decide)).1,
    ((C17_latido [0, 0, 1, 0, 0, 0, 0, 0, 0, 0, 0, 0] 1).2.2 (by decide)).2,
    (C17_latido [0, 0, 1, 0, 0, 0, 0, 0, 0, 0, 0, 0] 0).2.1.mpr (by decide)⟩

/-- C18: the tokeniser of `procesar_sentencia_nmea` yields exactly the maximal runs of
non-comma characters of the copied sentence, in order, at most the first 20; every token is
non-empty, so whenever 10 tokens are counted the test on tokens 2, 4 and 9 holds; and the
function returns 1 exactly when the sentence has at least 10 such non-empty tokens. -/
theorem C18_tokens_no_vacios (s : List Nat) (co : Coordenadas) :
    bucle_tokens 20 ((cadena s).take 255) = (tramos ((cadena s).take 255)).take 20
      ∧ (∀ t ∈ bucle_tokens 20 ((cadena s).take 255), t ≠ [])
      ∧ (10 ≤ (bucle_tokens 20 ((cadena s).take 255)).length →
          0 < ((bucle_tokens 20 ((cadena s).take 255)).getD 2 []).length
          ∧ 0 < ((bucle_tokens 20 ((cadena s).take 255)).getD 4 []).length
          ∧ 0 < ((bucle_tokens 20 ((cadena s).take 255)).getD 9 []).length)
      ∧ ((procesar_sentencia_nmea s co).1 = 1 ↔ 10 ≤ (tramos ((cadena s).take 255)).length)
      ∧ ((procesar_sentencia_nmea s co).1 = 0 ∨ (procesar_sentencia_nmea s co).1 = 1)
      ∧ (s.length ≤ 255 → 0 ∉ s →
          ((procesar_sentencia_nmea s co).1 = 1 ↔ 10 ≤ (tramos s).length)) := by
  have hne := bucle_tokens_ne 20 ((cadena s).take 255)
  obtain ⟨p1, p2, _⟩ := procesar_retorno_iff s co
  have hiff : (procesar_sentencia_nmea s co).1 = 1 ↔ 10 ≤ (tramos ((cadena s).take 255)).length := by
    rw [p1, bucle_tokens_tramos, List.length_take]
    omega
  refine ⟨bucle_tokens_tramos 20 _, hne, ?_, hiff, p2, ?_⟩
  · intro h10
    exact ⟨getD_length_pos _ hne 2 (by omega), getD_length_pos _ hne 4 (by omega),
      getD_length_pos _ hne 9 (by omega)⟩
  · intro hlen hnul
    rw [hiff, copia_de_sentencia s hlen hnul]

theorem C18_tokens_no_vacios_witness :
    (bytes "$GPGGA,123519,,N,01131.000,E,1,08,0.9,545.4,M,46.9,M,,*47").length ≤ 255
      ∧ 0 ∉ bytes "$GPGGA,123519,,N,01131.000,E,1,08,0.9,545.4,M,46.9,M,,*47"
      ∧ 10 ≤ (tramos (bytes "$GPGGA,123519,,N,01131.000,E,1,08,0.9,545.4,M,46.9,M,,*47")).length
      ∧ (procesar_sentencia_nmea
          (bytes "$GPGGA,123519,,N,01131.000,E,1,08,0.9,545.4,M,46.9,M,,*47") ⟨0, 0, 0⟩).1 = 1 :=
  ⟨by decide, by decide, by decide,
    ((C18_tokens_no_vacios (bytes "$GPGGA,123519,,N,01131.000,E,1,08,0.9,545.4,M,46.9,M,,*47")
      ⟨0, 0, 0⟩).2.2.2.2.2 (by decide) (by decide)).mpr (by decide)⟩

/-- C19: from every framer state and for every chunk, `leer_datos_gps` returns 0 or 1. When
it returns 1 it stopped at the first finalised frame that passes the prefilter and decodes to
a Fix: the bytes before the finalising byte `c` produce no Fix, the frame buffered at `c`
decodes to a Fix, the coordinates are those of that frame, the index is 0, and the result is
the same whatever bytes follow `c` in the chunk. It returns 0 exactly when no frame finalised
in the chunk decodes to a Fix, and then the whole chunk was processed: any further bytes
continue from the state reached. -/
theorem C19_primer_fix (e : Estado) (hbuf : e.buffer_nmea.length = 256)
    (h0 : 0 ≤ e.indice_buffer) (h255 : e.indice_buffer ≤ 255) (datos : List Nat)
    (co : Coordenadas) :
    ∃ o, leer_datos_gps e datos co = some o ∧ (o.retorno = 0 ∨ o.retorno = 1)
      ∧ (o.retorno = 1 →
          o.estado.indice_buffer = 0
          ∧ ∃ pre c post op, datos = pre ++ c :: post
              ∧ leer_datos_gps e pre co = some op ∧ op.retorno = 0 ∧ op.coords = co
              ∧ (∀ f ∈ op.sentencias, (prefiltro_y_decodificador f co).1 = 0)
              ∧ (c = 10 ∨ op.estado.indice_buffer = 255)
              ∧ (prefiltro_y_decodificador (contenido op.estado) co).1 ≠ 0
              ∧ o.coords = (prefiltro_y_decodificador (contenido op.estado) co).2
              ∧ o.sentencias = op.sentencias ++ [contenido op.estado]
              ∧ ∀ otros, leer_datos_gps e (pre ++ c :: otros) co = some o)
      ∧ (o.retorno = 0 ↔ ∀ f ∈ o.sentencias, (prefiltro_y_decodificador f co).1 = 0)
      ∧ (o.retorno = 0 →
          o.coords = co
          ∧ ∀ mas, leer_datos_gps e (datos ++ mas) co
              = (leer_datos_gps o.estado mas o.coords).map (Salida.con o.sentencias)) := by
  have hI : Inv e := ⟨hbuf, h0, h255⟩
  obtain ⟨o, ho, hoI, ho1, ho2, ho3, ho4⟩ := bucle_bytes_marcos datos e co hI
  have hret := bucle_marcos_retorno datos (contenido e) co
  have hfix : o.retorno = 1 →
      o.estado.indice_buffer = 0
      ∧ ∃ pre c post op, datos = pre ++ c :: post
          ∧ leer_datos_gps e pre co = some op ∧ op.retorno = 0 ∧ op.coords = co
          ∧ (∀ f ∈ op.sentencias, (prefiltro_y_decodificador f co).1 = 0)
          ∧ (c = 10 ∨ op.estado.indice_buffer = 255)
          ∧ (prefiltro_y_decodificador (contenido op.estado) co).1 ≠ 0
          ∧ o.coords = (prefiltro_y_decodificador (contenido op.estado) co).2
          ∧ o.sentencias = op.sentencias ++ [contenido op.estado]
          ∧ ∀ otros, leer_datos_gps e (pre ++ c :: otros) co = some o := by
    intro hr
    have hne : (bucle_marcos (contenido e) co datos).retorno ≠ 0 := by
      rw [← ho1, hr]; decide
    obtain ⟨pre, c, post, hd, hp0, hc, hp, hw⟩ := bucle_marcos_fix_descomp datos _ co hne
    obtain ⟨op, hop, hopI, hop1, hop2, hop3, hop4⟩ := bucle_bytes_marcos pre e co hI
    obtain ⟨q, hq, _, hq1, _⟩ := bucle_bytes_marcos (pre ++ [c]) e co hI
    obtain ⟨s1, s2⟩ := bucle_marcos_sin_fix pre _ co hp0
    have hqr : q.retorno ≠ 0 := by
      rw [hq1, bucle_marcos_append pre [c] _ co hp0, SalidaM.con_retorno,
        bucle_marcos_fin_solo _ _ _ hc, s1, if_pos hp]
      exact one_ne_zero
    have hqo : q = o := by
      have := bucle_bytes_append_fix (pre ++ [c]) post e co q hq hqr
      rw [List.append_assoc, List.singleton_append, ← hd, ho] at this
      exact (Option.some.inj this).symm
    rw [hw] at ho2 ho3 ho4
    refine ⟨indice_cero_de_contenido _ hoI ho2, pre, c, post, op, hd,
      by rw [leer_datos_gps_eq]; exact hop, by rw [hop1]; exact hp0, by rw [hop3]; exact s1,
      by rw [hop4]; exact s2, ?_, by rw [hop2]; exact hp, by rw [hop2]; exact ho3,
      by rw [hop2, hop4]; exact ho4, ?_⟩
    · rcases hc with hc | hc
      · exact Or.inl hc
      · right
        have hl := contenido_length op.estado hopI
        rw [hop2] at hl
        obtain ⟨_, a1, a2⟩ := hopI
        omega
    · intro otros
      rw [leer_datos_gps_eq]
      have := bucle_bytes_append_fix (pre ++ [c]) otros e co q hq hqr
      rw [List.append_assoc, List.singleton_append, hqo] at this
      exact this
  refine ⟨o, by rw [leer_datos_gps_eq]; exact ho, by rw [ho1]; exact hret, hfix, ?_, ?_⟩
  · constructor
    · intro hr
      rw [ho1] at hr
      rw [ho4]
      exact (bucle_marcos_sin_fix datos _ co hr).2
    · intro hall
      rcases (by rw [ho1]; exact hret : o.retorno = 0 ∨ o.retorno = 1) with h | h
      · exact h
      · obtain ⟨_, pre, c, post, op, _, _, _, _, _, _, hp, _, hs, _⟩ := hfix h
        exact absurd (hall (contenido op.estado) (by rw [hs]; simp)) hp
  · intro hr
    refine ⟨?_, ?_⟩
    · rw [ho1] at hr
      rw [ho3]
      exact (bucle_marcos_sin_fix datos _ co hr).1
    · intro mas
      rw [leer_datos_gps_eq, leer_datos_gps_eq]
      exact bucle_bytes_append datos mas e co o ho hr

theorem C19_primer_fix_witness :
    estado_inicial.buffer_nmea.length = 256 ∧ (0 : Int) ≤ estado_inicial.indice_buffer
      ∧ estado_inicial.indice_buffer ≤ 255
      ∧ ∃ o, leer_datos_gps estado_inicial
            (bytes "$GPGGA,123519,4807.038,N,01131.000,E,1,08,0.9,545.4,M" ++ [13, 10]
              ++ bytes "$GPRMC,08") ⟨0, 0, 0⟩ = some o
          ∧ o.retorno = 1 ∧ o.estado.indice_buffer = 0
          ∧ ∃ pre c post,
              bytes "$GPGGA,123519,4807.038,N,01131.000,E,1,08,0.9,545.4,M" ++ [13, 10]
                ++ bytes "$GPRMC,08" = pre ++ c :: post
              ∧ ∀ otros, leer_datos_gps estado_inicial (pre ++ c :: otros) ⟨0, 0, 0⟩ = some o := by
  refine ⟨List.length_replicate 256 0, by decide, by decide, ?_⟩
  obtain ⟨o, ho, _, hfix, _, _⟩ :=
    C19_primer_fix estado_inicial (List.length_replicate 256 0) (by decide) (by decide)
      (bytes "$GPGGA,123519,4807.038,N,01131.000,E,1,08,0.9,545.4,M" ++ [13, 10]
        ++ bytes "$GPRMC,08") ⟨0, 0, 0⟩
  have hev : (leer_datos_gps estado_inicial
      (bytes "$GPGGA,123519,4807.038,N,01131.000,E,1,08,0.9,545.4,M" ++ [13, 10]
        ++ bytes "$GPRMC,08") ⟨0, 0, 0⟩).map (fun o => o.retorno) = some 1 := by decide!
  rw [ho] at hev
  have hr : o.retorno = 1 := by simpa using hev
  obtain ⟨hi, pre, c, post, _, hd, _, _, _, _, _, _, _, _, hot⟩ := hfix hr
  exact ⟨o, ho, hr, hi, pre, c, post, hd, hot⟩

/-- C20: for every sentence, the copy made by `procesar_sentencia_nmea` has at most 255
characters and the token count never exceeds 20; when the count is at least 10 the indices
2, 3, 4, 5 and 9 are below the count and every stored token, in particular tokens 3 and 5,
has a first character: no access falls outside the token array or a token. -/
theorem C20_accesos_en_rango (s : List Nat) :
    ((cadena s).take 255).length ≤ 255
      ∧ (bucle_tokens 20 ((cadena s).take 255)).length ≤ 20
      ∧ (10 ≤ (bucle_tokens 20 ((cadena s).take 255)).length →
          (2 < (bucle_tokens 20 ((cadena s).take 255)).length
            ∧ 3 < (bucle_tokens 20 ((cadena s).take 255)).length
            ∧ 4 < (bucle_tokens 20 ((cadena s).take 255)).length
            ∧ 5 < (bucle_tokens 20 ((cadena s).take 255)).length
            ∧ 9 < (bucle_tokens 20 ((cadena s).take 255)).length)
          ∧ (∀ i, i < (bucle_tokens 20 ((cadena s).take 255)).length →
              ∃ c r, (bucle_tokens 20 ((cadena s).take 255)).getD i [] = c :: r)
          ∧ (∃ c r, (bucle_tokens 20 ((cadena s).take 255)).getD 3 [] = c :: r
              ∧ ((bucle_tokens 20 ((cadena s).take 255)).getD 3 []).headD 0 = c)
          ∧ (∃ c r, (bucle_tokens 20 ((cadena s).take 255)).getD 5 [] = c :: r
              ∧ ((bucle_tokens 20 ((cadena s).take 255)).getD 5 []).headD 0 = c)) := by
  have hne := bucle_tokens_ne 20 ((cadena s).take 255)
  have hex : ∀ i, i < (bucle_tokens 20 ((cadena s).take 255)).length →
      ∃ c r, (bucle_tokens 20 ((cadena s).take 255)).getD i [] = c :: r := by
    intro i hi
    have hp := getD_length_pos _ hne i hi
    cases hg : (bucle_tokens 20 ((cadena s).take 255)).getD i [] with
    | nil => rw [hg] at hp; simp at hp
    | cons c r => exact ⟨c, r, rfl⟩
  refine ⟨by simp, bucle_tokens_length 20 _, ?_⟩
  intro h10
  refine ⟨⟨by omega, by omega, by omega, by omega, by omega⟩, hex, ?_, ?_⟩
  · obtain ⟨c, r, h⟩ := hex 3 (by omega)
    exact ⟨c, r, h, by rw [h]; rfl⟩
  · obtain ⟨c, r, h⟩ := hex 5 (by omega)
    exact ⟨c, r, h, by rw [h]; rfl⟩

theorem C20_accesos_en_rango_witness :
    10 ≤ (bucle_tokens 20
        ((cadena (bytes "$GPGGA,123519,4807.038,N,01131.000,E,1,08,0.9,545.4,M")).take 255)).length
      ∧ 9 < (bucle_tokens 20
        ((cadena (bytes "$GPGGA,123519,4807.038,N,01131.000,E,1,08,0.9,545.4,M")).take 255)).length
      ∧ ∃ c r, (bucle_tokens 20
          ((cadena (bytes "$GPGGA,123519,4807.038,N,01131.000,E,1,08,0.9,545.4,M")).take 255)).getD
            3 [] = c :: r
          ∧ ((bucle_tokens 20
              ((cadena (bytes "$GPGGA,123519,4807.038,N,01131.000,E,1,08,0.9,545.4,M")).take
                255)).getD 3 []).headD 0 = c :=
  ⟨by decide,
    ((C20_accesos_en_rango (bytes "$GPGGA,123519,4807.038,N,01131.000,E,1,08,0.9,545.4,M")).2.2
      (by decide)).1.2.2.2.2,
    ((C20_accesos_en_rango (bytes "$GPGGA,123519,4807.038,N,01131.000,E,1,08,0.9,545.4,M")).2.2
      (by decide)).2.2.1⟩

end NMEA
